import Mathlib

/-!
# Verification of the Exegol TUI progress/selection subsystem

Shallow embedding of `wrapper/console/TUI.py` (class `ExegolTUI`):
the docker layer download tracker (`downloadDockerLayer`), the build
stream consumer (`buildDockerImage`), the table renderer (`printTable`
and its per-variant builders) and the interactive selectors
(`selectFromTable`, `selectFromList`).

The render surface (`ExegolProgress`, a thin wrapper over rich's
`Progress`) and the domain model classes (`ExegolImage`,
`ExegolContainer`, `SelectableInterface`) are not part of the analysed
sources; they are modelled from the spec where needed (see the doc
comments of `ProgressState` and `SelectableRecord`).
-/

/-! ## String helpers (Python `in`, `replace`, `startswith`) -/

/-- `containsAux needle hay = true` iff `needle` occurs as a contiguous
substring of `hay` (Python's `needle in hay`). -/
def containsAux (needle : List Char) : List Char → Bool
  | [] => needle.isEmpty
  | c :: rest => needle.isPrefixOf (c :: rest) || containsAux needle rest

/-- Python's substring test `sub in hay`. -/
def strContains (hay sub : String) : Bool :=
  containsAux sub.data hay.data

/-- Fuel-driven replacement of every occurrence of `pat` by `rep`
(Python's `str.replace`); fuel is the haystack length. -/
def replaceAux (pat rep : List Char) : Nat → List Char → List Char
  | _, [] => []
  | 0, l => l
  | fuel + 1, c :: rest =>
    if pat ≠ [] ∧ pat.isPrefixOf (c :: rest) then
      rep ++ replaceAux pat rep fuel ((c :: rest).drop pat.length)
    else
      c :: replaceAux pat rep fuel rest

/-- Python's `s.replace(pat, rep)` (all occurrences). -/
def replaceAll (s pat rep : String) : String :=
  ⟨replaceAux pat.data rep.data s.data.length s.data⟩

/-! ## Raw status events (one element of the docker SDK stream) -/

/-- The `progressDetail` sub-dictionary of a docker status event; both
fields may be absent. -/
structure ProgressDetail where
  current : Option Nat
  total : Option Nat
  deriving DecidableEq, Repr

/-- One raw line of a docker SDK stream.  Fields model the dictionary
entries read by `downloadDockerLayer` (`status`, `id`, `progressDetail`)
and by `buildDockerImage` (`stream`); each is `Option` because the
Python code accesses them with `dict.get` and a default. -/
structure RawLine where
  status : Option String
  id : Option String
  progressDetail : Option ProgressDetail
  stream : Option String
  deriving DecidableEq, Repr

/-- `line.get("status", '')`. -/
def RawLine.statusD (l : RawLine) : String := l.status.getD ""

/-- `line.get("progressDetail", {}).get("total", 100)`. -/
def RawLine.detailTotal (l : RawLine) : Nat :=
  match l.progressDetail with
  | none => 100
  | some d => d.total.getD 100

/-- `line.get("progressDetail", {}).get("current", 100)`. -/
def RawLine.detailCurrent (l : RawLine) : Nat :=
  match l.progressDetail with
  | none => 100
  | some d => d.current.getD 100

/-- `line.get("stream", '')`. -/
def RawLine.streamD (l : RawLine) : String := l.stream.getD ""

/-! ## Render surface (progress bar task pool) -/

/-- One row of the live progress display: rich's `Task` restricted to
the fields the analysed code reads or writes (`description`, `total`,
`completed`, `started`, plus the custom `layer` column field). -/
structure RTask where
  description : String
  total : Nat
  completed : Nat
  started : Bool
  layer : Option String
  deriving DecidableEq, Repr

/-- Modelled from the spec: the Render Surface (spec 4.3) — the task
pool of `ExegolProgress`, a wrapper over rich's `Progress`, whose code
is not among the analysed sources.  Tasks are identified by the `Nat`
handle returned by `add_task`; `tasks` is the id-keyed pool in creation
order and `nextId` the next fresh handle. -/
structure ProgressState where
  tasks : List (Nat × RTask)
  nextId : Nat
  deriving DecidableEq, Repr

def ProgressState.empty : ProgressState := ⟨[], 0⟩

/-- rich `Progress.add_task`: returns a fresh task id; the new task
starts with `completed = 0` and the given `started` flag. -/
def ProgressState.addTask (p : ProgressState) (desc : String) (total : Nat)
    (start : Bool) (layer : Option String) : Nat × ProgressState :=
  (p.nextId, ⟨p.tasks ++ [(p.nextId, ⟨desc, total, 0, start, layer⟩)], p.nextId + 1⟩)

/-- `ExegolProgress.getTask`: look a task up by id. -/
def ProgressState.getTask (p : ProgressState) (tid : Nat) : Option RTask :=
  (p.tasks.find? (fun t => t.1 == tid)).map (fun t => t.2)

/-- Apply `f` to the task with id `tid` (no-op when absent). -/
def ProgressState.modifyTask (p : ProgressState) (tid : Nat)
    (f : RTask → RTask) : ProgressState :=
  ⟨p.tasks.map (fun t => if t.1 == tid then (t.1, f t.2) else t), p.nextId⟩

/-- `progress.update(tid, total=n)`. -/
def ProgressState.updateTotal (p : ProgressState) (tid n : Nat) : ProgressState :=
  p.modifyTask tid (fun t => { t with total := n })

/-- `progress.update(tid, completed=n)`. -/
def ProgressState.updateCompleted (p : ProgressState) (tid n : Nat) : ProgressState :=
  p.modifyTask tid (fun t => { t with completed := n })

/-- `progress.getTask(tid).description = d`. -/
def ProgressState.setDescription (p : ProgressState) (tid : Nat) (d : String) :
    ProgressState :=
  p.modifyTask tid (fun t => { t with description := d })

/-- `progress.start_task(tid)`. -/
def ProgressState.startTask (p : ProgressState) (tid : Nat) : ProgressState :=
  p.modifyTask tid (fun t => { t with started := true })

/-- `progress.remove_task(tid)`. -/
def ProgressState.removeTask (p : ProgressState) (tid : Nat) : ProgressState :=
  ⟨p.tasks.filter (fun t => !(t.1 == tid)), p.nextId⟩

/-- Fallible `update(tid, total=n)`: rich raises `KeyError` on an
unknown task id. -/
def ProgressState.updateTotalE (p : ProgressState) (tid n : Nat) :
    Except String ProgressState :=
  if (p.getTask tid).isSome then .ok (p.updateTotal tid n) else .error "KeyError"

/-- Fallible `update(tid, completed=n)`. -/
def ProgressState.updateCompletedE (p : ProgressState) (tid n : Nat) :
    Except String ProgressState :=
  if (p.getTask tid).isSome then .ok (p.updateCompleted tid n) else .error "KeyError"

/-- Fallible `getTask(tid).description = d` (attribute access on a
missing task would raise). -/
def ProgressState.setDescriptionE (p : ProgressState) (tid : Nat) (d : String) :
    Except String ProgressState :=
  if (p.getTask tid).isSome then .ok (p.setDescription tid d)
  else .error "AttributeError"

/-- Fallible `remove_task(tid)`: raises on an unknown task id. -/
def ProgressState.removeTaskE (p : ProgressState) (tid : Nat) :
    Except String ProgressState :=
  if (p.getTask tid).isSome then .ok (p.removeTask tid) else .error "KeyError"

/-! ## Per-layer task pools (Python dicts `downloading` / `extracting`) -/

/-- A dict from layer id (possibly `None`) to progress-task id, in
insertion order. -/
abbrev TaskPool := List (Option String × Nat)

/-- `pool.get(k)`. -/
def poolGet (pool : TaskPool) (k : Option String) : Option Nat :=
  (pool.find? (fun e => e.1 == k)).map (fun e => e.2)

/-- `pool[k] = v` (only reached when `k` is absent, so append). -/
def poolSet (pool : TaskPool) (k : Option String) (v : Nat) : TaskPool :=
  pool ++ [(k, v)]

/-- `pool.pop(k)` (the removal part). -/
def poolRemove (pool : TaskPool) (k : Option String) : TaskPool :=
  pool.filter (fun e => !(e.1 == k))

/-! ## The layer download tracker (`downloadDockerLayer`) -/

/-- The whole mutable state of one `downloadDockerLayer` invocation:
the three layer-id sets, the two per-layer task pools, the render
surface, and the ids of the two permanent aggregate rows. -/
structure DLState where
  layers : Finset (Option String)
  layers_downloaded : Finset (Option String)
  layers_extracted : Finset (Option String)
  downloading : TaskPool
  extracting : TaskPool
  progress : ProgressState
  task_layers_download : Nat
  task_layers_extract : Nat
  deriving DecidableEq

/-- State at loop entry: the two aggregate rows exist (`total=0`), the
extract row is created not-started (`start=False`), pools and sets are
empty. -/
def dlInit : DLState :=
  let p0 := ProgressState.empty
  let r1 := p0.addTask "[bold red]Downloading layers..." 0 true none
  let r2 := r1.2.addTask "[bold gold1]Extracting layers..." 0 false none
  ⟨∅, ∅, ∅, [], [], r2.2, r1.1, r2.1⟩

/-- `"Image is up to date" in status or "Status: Downloaded newer image for" in status`. -/
def isOpComplete (status : String) : Bool :=
  strContains status "Image is up to date" ||
    strContains status "Status: Downloaded newer image for"

/-- The body of `downloadDockerLayer`'s event loop: process one raw
stream line (pure version; dictionary/pool operations that cannot fail
on the paths actually taken are total here, and `dlStepE` below is the
fallible variant). -/
def dlStep (s : DLState) (line : RawLine) : DLState :=
  let status := line.statusD
  let layer_id := line.id
  if status = "Pulling fs layer" then
    let ls := insert layer_id s.layers
    { s with
      layers := ls
      progress := (s.progress.updateTotal s.task_layers_download ls.card).updateTotal
        s.task_layers_extract ls.card }
  else if strContains status "Pulling from " then
    let name := replaceAll status "Pulling from " ""
    let tag := line.id.getD "latest"
    { s with
      progress := (s.progress.setDescription s.task_layers_download
          ("[bold red]Downloading " ++ name ++ ":" ++ tag)).setDescription
        s.task_layers_extract ("[bold gold1]Extracting " ++ name ++ ":" ++ tag) }
  else if status = "Download complete" ∨ status = "Pull complete" then
    let downloaded :=
      if status = "Pull complete" then s.layers_downloaded
      else insert layer_id s.layers_downloaded
    let extracted :=
      if status = "Pull complete" then insert layer_id s.layers_extracted
      else s.layers_extracted
    let tp := if status = "Pull complete" then s.extracting else s.downloading
    let r :=
      match poolGet tp layer_id with
      | some layer_task => (poolRemove tp layer_id, s.progress.removeTask layer_task)
      | none => (tp, s.progress)
    let prog := (r.2.updateCompleted s.task_layers_download downloaded.card).updateCompleted
      s.task_layers_extract extracted.card
    { s with
      layers_downloaded := downloaded
      layers_extracted := extracted
      downloading := if status = "Pull complete" then s.downloading else r.1
      extracting := if status = "Pull complete" then r.1 else s.extracting
      progress := prog }
  else if status = "Downloading" ∨ status = "Extracting" then
    let p0 :=
      if status = "Extracting" then
        match s.progress.getTask s.task_layers_extract with
        | some t => if t.started then s.progress
                    else s.progress.startTask s.task_layers_extract
        | none => s.progress
      else s.progress
    let tp := if status = "Extracting" then s.extracting else s.downloading
    match poolGet tp layer_id with
    | some task_id =>
      { s with progress := p0.updateCompleted task_id line.detailCurrent }
    | none =>
      let desc := (if status = "Downloading" then "[blue]" else "[green]") ++ status ++
        " " ++ (match layer_id with | some i => i | none => "None")
      let r := p0.addTask desc line.detailTotal true layer_id
      let prog := r.2.updateCompleted r.1 line.detailCurrent
      if status = "Extracting" then
        { s with extracting := poolSet tp layer_id r.1, progress := prog }
      else
        { s with downloading := poolSet tp layer_id r.1, progress := prog }
  else
    -- "Image is up to date" / "Status: Downloaded newer image for" only logs
    -- (the possible `break` is handled by `dlRun`); anything else only logs.
    s

/-- `dlStep` with the genuinely fallible operations made explicit:
`progress.update` / `remove_task` on an unknown task id raise
`KeyError`, reading `.started` or assigning `.description` through
`getTask` raises on `None`, and `dict.pop` on an absent key raises
`KeyError`.  `dlStepE_ok` proves no error is reachable from the initial
state. -/
def dlStepE (s : DLState) (line : RawLine) : Except String DLState :=
  let status := line.statusD
  let layer_id := line.id
  if status = "Pulling fs layer" then do
    let ls := insert layer_id s.layers
    let p1 ← s.progress.updateTotalE s.task_layers_download ls.card
    let p2 ← p1.updateTotalE s.task_layers_extract ls.card
    return { s with layers := ls, progress := p2 }
  else if strContains status "Pulling from " then do
    let name := replaceAll status "Pulling from " ""
    let tag := line.id.getD "latest"
    let p1 ← s.progress.setDescriptionE s.task_layers_download
      ("[bold red]Downloading " ++ name ++ ":" ++ tag)
    let p2 ← p1.setDescriptionE s.task_layers_extract
      ("[bold gold1]Extracting " ++ name ++ ":" ++ tag)
    return { s with progress := p2 }
  else if status = "Download complete" ∨ status = "Pull complete" then do
    let downloaded :=
      if status = "Pull complete" then s.layers_downloaded
      else insert layer_id s.layers_downloaded
    let extracted :=
      if status = "Pull complete" then insert layer_id s.layers_extracted
      else s.layers_extracted
    let tp := if status = "Pull complete" then s.extracting else s.downloading
    let r ←
      match poolGet tp layer_id with
      | some layer_task => do
        let p ← s.progress.removeTaskE layer_task
        -- `task_pool.pop(layer_id)` cannot raise here: the key was found.
        pure (poolRemove tp layer_id, p)
      | none => pure (tp, s.progress)
    let p1 ← r.2.updateCompletedE s.task_layers_download downloaded.card
    let p2 ← p1.updateCompletedE s.task_layers_extract extracted.card
    return { s with
      layers_downloaded := downloaded
      layers_extracted := extracted
      downloading := if status = "Pull complete" then s.downloading else r.1
      extracting := if status = "Pull complete" then r.1 else s.extracting
      progress := p2 }
  else if status = "Downloading" ∨ status = "Extracting" then do
    let p0 ←
      if status = "Extracting" then
        match s.progress.getTask s.task_layers_extract with
        | some t =>
          pure (if t.started then s.progress
                else s.progress.startTask s.task_layers_extract)
        | none => Except.error "AttributeError"
      else pure s.progress
    let tp := if status = "Extracting" then s.extracting else s.downloading
    match poolGet tp layer_id with
    | some task_id => do
      let p1 ← p0.updateCompletedE task_id line.detailCurrent
      return { s with progress := p1 }
    | none => do
      let desc := (if status = "Downloading" then "[blue]" else "[green]") ++ status ++
        " " ++ (match layer_id with | some i => i | none => "None")
      let r := p0.addTask desc line.detailTotal true layer_id
      let p1 ← r.2.updateCompletedE r.1 line.detailCurrent
      if status = "Extracting" then
        return { s with extracting := poolSet tp layer_id r.1, progress := p1 }
      else
        return { s with downloading := poolSet tp layer_id r.1, progress := p1 }
  else
    return s

/-- `true` exactly when the event falls into the
`"Image is up to date" / "Status: Downloaded newer image for"` branch
(no earlier branch matched), i.e. when quick-exit mode may `break`. -/
def dlBreaks (line : RawLine) : Bool :=
  let status := line.statusD
  !(status == "Pulling fs layer") && !(strContains status "Pulling from ") &&
    !(status == "Download complete" || status == "Pull complete") &&
    !(status == "Downloading" || status == "Extracting") && isOpComplete status

/-- The event loop of `downloadDockerLayer`: consume the stream one
line at a time; in quick-exit mode a terminal event breaks the loop.
Returns the final state and the unconsumed remainder of the stream. -/
def dlRun (quick_exit : Bool) : DLState → List RawLine → DLState × List RawLine
  | s, [] => (s, [])
  | s, line :: rest =>
    let s' := dlStep s line
    if dlBreaks line && quick_exit then (s', rest)
    else dlRun quick_exit s' rest

/-- Fallible variant of the event loop (a raised exception aborts
consumption). -/
def dlRunE (quick_exit : Bool) : DLState → List RawLine →
    Except String (DLState × List RawLine)
  | s, [] => .ok (s, [])
  | s, line :: rest => do
    let s' ← dlStepE s line
    if dlBreaks line && quick_exit then return (s', rest)
    else dlRunE quick_exit s' rest

/-- `ExegolTUI.downloadDockerLayer(stream, quick_exit)`: run the event
loop from the freshly initialised state. -/
def downloadDockerLayer (stream : List RawLine) (quick_exit : Bool) :
    DLState × List RawLine :=
  dlRun quick_exit dlInit stream

/-! ## Build stream consumer (`buildDockerImage`) -/

/-- Python `str.strip()` (both ends). -/
def trimCharsL : List Char → List Char
  | [] => []
  | c :: rest => if c.isWhitespace then trimCharsL rest else c :: rest

/-- Python `str.strip()`. -/
def pyStrip (s : String) : String :=
  ⟨(trimCharsL (trimCharsL s.data.reverse).reverse)⟩

/-- Python `str.rstrip()`. -/
def pyRstrip (s : String) : String :=
  ⟨(trimCharsL s.data.reverse).reverse⟩

def isLowerAlnum (c : Char) : Bool :=
  ('a' ≤ c && c ≤ 'z') || ('0' ≤ c && c ≤ '9')

/-- `re.match(r"Successfully built [a-z0-9]{12}", t)`: anchored at the
start, twelve lowercase-alphanumeric chars after the fixed prefix. -/
def matchesSuccessfullyBuilt (t : String) : Bool :=
  let pre := "Successfully built ".data
  pre.isPrefixOf t.data &&
    ((t.data.drop pre.length).take 12).length == 12 &&
    ((t.data.drop pre.length).take 12).all isLowerAlnum

/-- `re.match(r"^Successfully tagged ", t)`. -/
def matchesSuccessfullyTagged (t : String) : Bool :=
  "Successfully tagged ".data.isPrefixOf t.data

/-- Observable actions of `buildDockerImage`: log lines at their
levels, and an embedded re-entrant pull consumption with its final
tracker state. -/
inductive BuildEvent
  | info (msg : String)
  | verboseMsg (msg : String)
  | rawDebug (msg : String)
  | subPull (final : DLState)
  deriving DecidableEq

/-- The logging part of one `buildDockerImage` loop iteration (the
`stream_text.strip() != ''` block). -/
def buildLineEvents (t : String) : List BuildEvent :=
  if pyStrip t ≠ "" then
    if strContains t "Step" then [.info (pyRstrip t)]
    else if strContains t "--->" ||
        strContains t "Removing intermediate container " ||
        matchesSuccessfullyBuilt t || matchesSuccessfullyTagged t then
      [.verboseMsg (pyRstrip t)]
    else [.rawDebug t]
  else []

/-- `ExegolTUI.buildDockerImage(build_stream)`: consume the build
stream; a line containing `": FROM "` triggers re-entrant consumption
of the *same* stream by `downloadDockerLayer` in quick-exit mode, after
which the build loop resumes on whatever that sub-consumption left
unconsumed. -/
def buildRun : List RawLine → List BuildEvent
  | [] => []
  | line :: rest =>
    let t := line.streamD
    let logs := buildLineEvents t
    if strContains t ": FROM " then
      let r := dlRun true dlInit rest
      logs ++ (BuildEvent.info "Downloading docker image" :: BuildEvent.subPull r.1 ::
        buildRun r.2)
    else
      logs ++ buildRun rest
termination_by l => l.length
decreasing_by
  · simp only [List.length_cons]
    have h : ∀ (l : List RawLine) (s : DLState), (dlRun true s l).2.length ≤ l.length := by
      intro l
      induction l with
      | nil => intro s; simp [dlRun]
      | cons a as ih =>
        intro s
        simp only [dlRun]
        split
        · simpa using Nat.le_succ as.length
        · exact le_trans (ih _) (Nat.le_succ as.length)
    exact Nat.lt_succ_of_le (h rest dlInit)
  · simp only [List.length_cons]; exact Nat.lt_succ_self rest.length

/-- `ExegolTUI.buildDockerImage`. -/
def buildDockerImage (build_stream : List RawLine) : List BuildEvent :=
  buildRun build_stream

/-! ## Tabular presenter (`printTable` and the per-variant builders) -/

/-- A rendered rich `Table`: its title, column headers (in order; a
header may be `None`) and rows of cells. -/
structure TableModel where
  title : Option String
  columns : List (Option String)
  rows : List (List String)
  deriving DecidableEq, Repr

/-- Opaque model of `wrapper/model/ExegolImage` (outside the analysed
sources): just the strings its getters return. -/
structure ExegolImage where
  imageId : String
  name : String
  downloadSize : String
  realSize : String
  size : String
  status : String
  imageType : String
  deriving DecidableEq, Repr

def ExegolImage.getId (i : ExegolImage) : String := i.imageId

def ExegolImage.getName (i : ExegolImage) : String := i.name

def ExegolImage.getDownloadSize (i : ExegolImage) : String := i.downloadSize

def ExegolImage.getRealSize (i : ExegolImage) : String := i.realSize

def ExegolImage.getSize (i : ExegolImage) : String := i.size

def ExegolImage.getStatus (i : ExegolImage) : String := i.status

def ExegolImage.getType (i : ExegolImage) : String := i.imageType

/-- Opaque model of `wrapper/model/ExegolContainer` (outside the
analysed sources): the strings read by the container table builder.
The debug flag passed to `getTextMounts`/`getTextDevices`/`getTextEnvs`
only parameterises those external getters, so their outputs are plain
fields here. -/
structure ExegolContainer where
  containerId : String
  name : String
  textStatus : String
  imageName : String
  textFeatures : String
  textMounts : String
  textDevices : String
  textEnvs : String
  deriving DecidableEq, Repr

/-- The homogeneous list handed to `printTable`, tagged by the runtime
type of its first element (`type(data[0])` dispatch); `unsupported n`
stands for a list of `n` records of any other type. -/
inductive RecordData
  | images (l : List ExegolImage)
  | containers (l : List ExegolContainer)
  | strings (l : List String)
  | unsupported (n : Nat)
  deriving DecidableEq

def RecordData.len : RecordData → Nat
  | .images l => l.length
  | .containers l => l.length
  | .strings l => l.length
  | .unsupported n => n

/-- `ExegolTUI.__buildImageTable`. -/
def buildImageTable (verbose : Bool) (t : TableModel) (data : List ExegolImage) :
    TableModel :=
  let cols : List (Option String) :=
    (if verbose then [some "Id"] else []) ++ [some "Image tag"] ++
      (if verbose then [some "Download size", some "Disk size"] else [some "Size"]) ++
      [some "Status", some "Type"]
  let rows := data.map (fun i =>
    if verbose then
      [i.getId, i.getName, i.getDownloadSize, i.getRealSize, i.getStatus, i.getType]
    else
      [i.getName, i.getSize, i.getStatus, i.getType])
  { t with title := some "Available images", columns := t.columns ++ cols,
           rows := t.rows ++ rows }

/-- `ExegolTUI.__buildContainerTable` (the debug flag is consumed only
by the external text getters, see `ExegolContainer`). -/
def buildContainerTable (verbose debug : Bool) (t : TableModel)
    (data : List ExegolContainer) : TableModel :=
  let cols : List (Option String) :=
    (if verbose then [some "Id"] else []) ++
      [some "Container tag", some "State", some "Image tag", some "Configurations"] ++
      (if verbose then [some "Mounts", some "Devices", some "Envs"] else [])
  let rows := data.map (fun c =>
    if verbose then
      [c.containerId, c.name, c.textStatus, c.imageName, c.textFeatures,
        c.textMounts, c.textDevices, c.textEnvs]
    else
      [c.name, c.textStatus, c.imageName, c.textFeatures])
  { t with title := some "[gold3][g]Available containers[/g][/gold3]",
           columns := t.columns ++ cols, rows := t.rows ++ rows }

/-- `ExegolTUI.__buildStringTable`.  In the Python source the `title`
parameter declares a default of `"Key"`, but `printTable` always
passes its own (possibly `None`) title positionally, so the default
never applies on the `printTable` path; the parameter is therefore
explicit here. -/
def buildStringTable (t : TableModel) (data : List String) (title : Option String) :
    TableModel :=
  { t with title := none, columns := t.columns ++ [title],
           rows := t.rows ++ data.map (fun s => [s]) }

/-- The raised conditions of the selection/rendering subsystem. -/
inductive TUIError
  | indexError
  | notImplementedError
  | keyError
  | criticalError
  deriving DecidableEq, Repr

/-- `ExegolTUI.printTable(data, title)`: returns the informational log
lines and the table printed to the console (`none` when no data was
supplied), or the raised error for an unsupported variant.  The
verbosity tier (`logger.isEnabledFor`) is passed explicitly. -/
def printTable (verbose debug : Bool) (data : RecordData) (title : Option String) :
    Except TUIError (List String × Option TableModel) :=
  let table : TableModel := ⟨title, [], []⟩
  if data.len = 0 then .ok (["No data supplied"], none)
  else
    match data with
    | .images l => .ok ([], some (buildImageTable verbose table l))
    | .containers l => .ok ([], some (buildContainerTable verbose debug table l))
    | .strings l => .ok ([], some (buildStringTable table l title))
    | .unsupported _ => .error .notImplementedError

/-! ## Interactive selectors -/

/-- One invocation of `Prompt.ask`: the closed choice set and the
offered default.  The prompt mechanism itself re-prompts until the
answer is in `choices`. -/
structure PromptCall where
  choices : List String
  defaultChoice : String
  deriving DecidableEq, Repr

/-- The `object_type` argument of `selectFromTable` (a Python class
object used only to pick the empty-list warning message). -/
inductive ObjectType
  | image
  | container
  | other
  deriving DecidableEq, Repr

/-- Everything a selector call observably does: warnings logged, tables
printed, prompts issued, and the returned value or raised condition. -/
structure SelectOut (α : Type) where
  warnings : List String
  tables : List TableModel
  promptCalls : List PromptCall
  result : Except TUIError α

/-- `ExegolTUI.selectFromTable(data, object_type, default)`.

Modelled from the spec: `SelectableInterface` is not among the analysed
sources, so the record type is an arbitrary `α` equipped with `getKey`
(spec 3, "SelectableRecord": the capability `has a unique display
key`), the comparison `choice == o` of a chosen key against a record is
key equality (spec 4.5: "Returns the record whose key equals the chosen
key"), and `render` stands for the `cls.printTable(data)` call on the
record variant (spec 4.4, verified separately on `printTable`). -/
def selectFromTable {α : Type} (render : List α → TableModel) (getKey : α → String)
    (ask : PromptCall → String) (data : List α) (objectType : ObjectType)
    (default : Option String) : SelectOut α :=
  if data.length = 0 then
    let w := match objectType with
      | .image => "No images were found"
      | .container => "No container were found"
      | .other => "No container were found"
    ⟨[w], [], [], .error .indexError⟩
  else
    let tbl := render data
    let choices := data.map getKey
    let d := match default with
      | some d0 => d0
      | none => choices.headD ""
    let call : PromptCall := ⟨choices, d⟩
    let choice := ask call
    match data.find? (fun o => choice == getKey o) with
    | some o => ⟨[], [tbl], [call], .ok o⟩
    | none => ⟨[], [tbl], [call], .error .criticalError⟩

/-- The duck-typed `data` argument of `selectFromList`: either a list
of strings or a dict (key/value pairs in insertion order). -/
inductive IterData (α : Type)
  | strList (l : List String)
  | dict (d : List (String × α))
  deriving DecidableEq

def IterData.len {α : Type} : IterData α → Nat
  | .strList l => l.length
  | .dict d => d.length

/-- `ExegolTUI.selectFromList(data, subject, title, default)`: list
input returns the chosen string (`Sum.inl`), dict input returns the
value mapped by the chosen key (`Sum.inr`).  `title` defaults to
`"Options"` at the Python call sites. -/
def selectFromList {α : Type} (verbose debug : Bool) (ask : PromptCall → String)
    (subject title : String) (default : Option String) (data : IterData α) :
    SelectOut (String ⊕ α) :=
  if data.len = 0 then ⟨["No options were found"], [], [], .error .indexError⟩
  else
    let submit_data := match data with
      | .strList l => l
      | .dict d => d.map (fun e => e.1)
    match printTable verbose debug (.strings submit_data) (some title) with
    | .error e => ⟨[], [], [], .error e⟩
    | .ok r =>
      let tables := match r.2 with
        | some t => [t]
        | none => []
      let d := match default with
        | some d0 => d0
        | none => submit_data.headD ""
      let call : PromptCall := ⟨submit_data, d⟩
      let choice := ask call
      match data with
      | .strList _ => ⟨r.1, tables, [call], .ok (.inl choice)⟩
      | .dict dd =>
        match dd.find? (fun e => e.1 == choice) with
        | some e => ⟨r.1, tables, [call], .ok (.inr e.2)⟩
        | none => ⟨r.1, tables, [call], .error .keyError⟩

/-! ## Validity and the tracker invariant -/

/-- A stream is valid (w.r.t. the layer ids already seen) when every
completion event names a previously discovered layer. -/
def validFrom (seen : Finset (Option String)) : List RawLine → Bool
  | [] => true
  | e :: rest =>
    (if e.statusD = "Download complete" ∨ e.statusD = "Pull complete" then
      decide (e.id ∈ seen)
    else true) &&
      validFrom (if e.statusD = "Pulling fs layer" then insert e.id seen else seen) rest

/-- A valid status-event sequence: every completion event's layer was
announced by an earlier "Pulling fs layer" event. -/
abbrev ValidStream (l : List RawLine) : Prop := validFrom ∅ l = true

/-- The aggregate row of the given phase (`true` = extract). -/
def aggTask (ext : Bool) (s : DLState) : Option RTask :=
  s.progress.getTask (if ext then s.task_layers_extract else s.task_layers_download)

/-- The "started" flag of the extract aggregate row. -/
def extractStartedB (s : DLState) : Bool :=
  ((s.progress.getTask s.task_layers_extract).map (fun t => t.started)).getD false

/-- The completed-set of the given phase. -/
def compSet (ext : Bool) (s : DLState) : Finset (Option String) :=
  if ext then s.layers_extracted else s.layers_downloaded

/-- The per-layer task pool of the given phase. -/
def poolOf (ext : Bool) (s : DLState) : TaskPool :=
  if ext then s.extracting else s.downloading

/-- The completion status string of the given phase. -/
def finishStatusOf (ext : Bool) : String :=
  if ext then "Pull complete" else "Download complete"

/-- The in-progress status string of the given phase. -/
def progStatusOf (ext : Bool) : String :=
  if ext then "Extracting" else "Downloading"

/-- Structural invariant of the tracker state, maintained by every
event: both aggregate rows exist and mirror the set cardinalities,
their ids are distinct and in range, every pooled per-layer task id is
live, distinct from the aggregates' and from every other pooled id, and
all task ids are below the allocator's next id. -/
structure DLInv (s : DLState) : Prop where
  down_task : ∃ t, s.progress.getTask s.task_layers_download = some t ∧
    t.total = s.layers.card ∧ t.completed = s.layers_downloaded.card
  ext_task : ∃ t, s.progress.getTask s.task_layers_extract = some t ∧
    t.total = s.layers.card ∧ t.completed = s.layers_extracted.card
  ids_ne : s.task_layers_download ≠ s.task_layers_extract
  down_lt : s.task_layers_download < s.progress.nextId
  ext_lt : s.task_layers_extract < s.progress.nextId
  pool_tid : ∀ kv ∈ s.downloading ++ s.extracting,
    kv.2 ≠ s.task_layers_download ∧ kv.2 ≠ s.task_layers_extract ∧
    (s.progress.getTask kv.2).isSome = true ∧ kv.2 < s.progress.nextId
  pool_nodup : ((s.downloading ++ s.extracting).map (fun kv => kv.2)).Nodup
  tasks_lt : ∀ t ∈ s.progress.tasks, t.1 < s.progress.nextId

/-! ## Lemmas about the render-surface task pool -/

theorem ProgressState.getTask_modify (p : ProgressState) (tid tid' : Nat)
    (f : RTask → RTask) :
    (p.modifyTask tid f).getTask tid' =
      if tid' = tid then (p.getTask tid').map f else p.getTask tid' := by
  have hfst : ∀ t : Nat × RTask,
      ((if t.1 == tid then (t.1, f t.2) else t).1 == tid') = (t.1 == tid') := by
    intro t; by_cases h : t.1 = tid <;> simp [h]
  simp only [ProgressState.modifyTask, ProgressState.getTask, List.find?_map]
  have hcomp : ((fun t : Nat × RTask => t.1 == tid') ∘
      (fun t : Nat × RTask => if t.1 == tid then (t.1, f t.2) else t)) =
      (fun t : Nat × RTask => t.1 == tid') := by
    funext t; exact hfst t
  rw [hcomp]
  rcases hf : p.tasks.find? (fun t : Nat × RTask => t.1 == tid') with _ | t
  · simp [hf]
  · have ht := List.find?_some hf
    have ht' : t.1 = tid' := by simpa using ht
    by_cases h : tid' = tid
    · simp [hf, ht', h]
    · have : (t.1 == tid) = false := by simp [ht', h]
      simp [hf, this, h, ht']

theorem ProgressState.getTask_modify_self (p : ProgressState) (tid : Nat)
    (f : RTask → RTask) :
    (p.modifyTask tid f).getTask tid = (p.getTask tid).map f := by
  simp [ProgressState.getTask_modify]

theorem ProgressState.getTask_modify_ne (p : ProgressState) (tid tid' : Nat)
    (f : RTask → RTask) (h : tid' ≠ tid) :
    (p.modifyTask tid f).getTask tid' = p.getTask tid' := by
  simp [ProgressState.getTask_modify, h]

theorem ProgressState.getTask_remove_ne (p : ProgressState) (tid tid' : Nat)
    (h : tid' ≠ tid) :
    (p.removeTask tid).getTask tid' = p.getTask tid' := by
  obtain ⟨ts, n⟩ := p
  simp only [ProgressState.removeTask, ProgressState.getTask]
  induction ts with
  | nil => rfl
  | cons a as ih =>
    simp only [List.filter_cons]
    by_cases h1 : a.1 = tid
    · have h2 : (a.1 == tid') = false := by simp [h1, Ne.symm h]
      simp only [show (a.1 == tid) = true by simp [h1], Bool.not_true, Bool.false_eq_true,
        if_false]
      rw [List.find?_cons_of_neg _ (by simp [h1, Ne.symm h])]
      exact ih
    · simp only [show (a.1 == tid) = false by simp [h1], Bool.not_false, if_true]
      by_cases h3 : a.1 = tid'
      · rw [List.find?_cons_of_pos _ (by simp [h3]), List.find?_cons_of_pos _ (by simp [h3])]
      · rw [List.find?_cons_of_neg _ (by simp [h3]), List.find?_cons_of_neg _ (by simp [h3])]
        exact ih

theorem ProgressState.getTask_remove_self (p : ProgressState) (tid : Nat) :
    (p.removeTask tid).getTask tid = none := by
  obtain ⟨ts, n⟩ := p
  simp only [ProgressState.removeTask, ProgressState.getTask]
  induction ts with
  | nil => rfl
  | cons a as ih =>
    simp only [List.filter_cons]
    by_cases h1 : a.1 = tid
    · simp only [show (a.1 == tid) = true by simp [h1], Bool.not_true, Bool.false_eq_true,
        if_false]
      exact ih
    · simp only [show (a.1 == tid) = false by simp [h1], Bool.not_false, if_true]
      rw [List.find?_cons_of_neg _ (by simp [h1])]
      exact ih

theorem ProgressState.getTask_add_old (p : ProgressState) (tid : Nat) (r : RTask)
    (d : String) (tot : Nat) (st : Bool) (lay : Option String)
    (h : p.getTask tid = some r) :
    ((p.addTask d tot st lay).2).getTask tid = some r := by
  simp only [ProgressState.addTask, ProgressState.getTask, List.find?_append]
  simp only [ProgressState.getTask] at h
  rcases hf : p.tasks.find? (fun t : Nat × RTask => t.1 == tid) with _ | t
  · simp [hf] at h
  · simp only [hf, Option.or_some]
    simpa [hf] using h

theorem ProgressState.getTask_add_new (p : ProgressState)
    (d : String) (tot : Nat) (st : Bool) (lay : Option String)
    (h : ∀ t ∈ p.tasks, t.1 ≠ p.nextId) :
    ((p.addTask d tot st lay).2).getTask p.nextId = some ⟨d, tot, 0, st, lay⟩ := by
  simp only [ProgressState.addTask, ProgressState.getTask, List.find?_append]
  have hn : p.tasks.find? (fun t : Nat × RTask => t.1 == p.nextId) = none := by
    refine List.find?_eq_none.mpr (fun x hx => ?_)
    simp [h x hx]
  simp [hn]

theorem ProgressState.tasks_fst_modify (p : ProgressState) (tid : Nat)
    (f : RTask → RTask) :
    (p.modifyTask tid f).tasks.map Prod.fst = p.tasks.map Prod.fst := by
  simp only [ProgressState.modifyTask, List.map_map]
  congr 1
  funext t
  by_cases h : t.1 = tid <;> simp [h]

theorem ProgressState.tasks_lt_modify (p : ProgressState) (tid m : Nat)
    (f : RTask → RTask) (h : ∀ t ∈ p.tasks, t.1 < m) :
    ∀ t ∈ (p.modifyTask tid f).tasks, t.1 < m := by
  intro t ht
  have h1 : t.1 ∈ (p.modifyTask tid f).tasks.map Prod.fst := List.mem_map_of_mem _ ht
  rw [ProgressState.tasks_fst_modify] at h1
  obtain ⟨u, hu, hu2⟩ := List.mem_map.mp h1
  exact hu2 ▸ h u hu

theorem ProgressState.tasks_lt_remove (p : ProgressState) (tid m : Nat)
    (h : ∀ t ∈ p.tasks, t.1 < m) :
    ∀ t ∈ (p.removeTask tid).tasks, t.1 < m := by
  intro t ht
  exact h t (List.mem_of_mem_filter ht)

theorem ProgressState.isSome_modify (p : ProgressState) (tid tid' : Nat)
    (f : RTask → RTask) (h : (p.getTask tid').isSome = true) :
    ((p.modifyTask tid f).getTask tid').isSome = true := by
  rw [ProgressState.getTask_modify]
  by_cases h1 : tid' = tid
  · simpa [h1] using h
  · simpa [h1] using h

theorem ProgressState.modify_modify_same (p : ProgressState) (tid : Nat)
    (f g : RTask → RTask) :
    (p.modifyTask tid f).modifyTask tid g = p.modifyTask tid (fun t => g (f t)) := by
  obtain ⟨ts, n⟩ := p
  simp only [ProgressState.modifyTask, List.map_map]
  have hc : ((fun t : Nat × RTask => if t.1 == tid then (t.1, g t.2) else t) ∘
      (fun t : Nat × RTask => if t.1 == tid then (t.1, f t.2) else t)) =
      (fun t : Nat × RTask => if t.1 == tid then (t.1, g (f t.2)) else t) := by
    funext t
    by_cases h : t.1 = tid <;> simp [h]
  rw [hc]

theorem ProgressState.modify_comm (p : ProgressState) (a b : Nat)
    (f g : RTask → RTask) (h : a ≠ b) :
    (p.modifyTask a f).modifyTask b g = (p.modifyTask b g).modifyTask a f := by
  obtain ⟨ts, n⟩ := p
  simp only [ProgressState.modifyTask, List.map_map]
  have hc : ((fun t : Nat × RTask => if t.1 == b then (t.1, g t.2) else t) ∘
      (fun t : Nat × RTask => if t.1 == a then (t.1, f t.2) else t)) =
      ((fun t : Nat × RTask => if t.1 == a then (t.1, f t.2) else t) ∘
      (fun t : Nat × RTask => if t.1 == b then (t.1, g t.2) else t)) := by
    funext t
    by_cases h1 : t.1 = a
    · have h2 : ¬(t.1 = b) := fun hb => h ((h1.symm.trans hb) ▸ rfl)
      simp [h1, h2, h, Ne.symm h]
    · by_cases h2 : t.1 = b <;> simp [h1, h2, h, Ne.symm h]
  rw [hc]

/-! ## Branch equations for `dlStep` -/

theorem dlStep_discovery (s : DLState) (e : RawLine)
    (h : e.statusD = "Pulling fs layer") :
    dlStep s e = { s with
      layers := insert e.id s.layers
      progress := (s.progress.updateTotal s.task_layers_download
        (insert e.id s.layers).card).updateTotal s.task_layers_extract
        (insert e.id s.layers).card } := by
  simp [dlStep, h]

theorem dlStep_sourceNamed (s : DLState) (e : RawLine)
    (h1 : ¬(e.statusD = "Pulling fs layer"))
    (h2 : strContains e.statusD "Pulling from " = true) :
    dlStep s e = { s with
      progress := (s.progress.setDescription s.task_layers_download
          ("[bold red]Downloading " ++ replaceAll e.statusD "Pulling from " "" ++ ":" ++
            e.id.getD "latest")).setDescription s.task_layers_extract
        ("[bold gold1]Extracting " ++ replaceAll e.statusD "Pulling from " "" ++ ":" ++
          e.id.getD "latest") } := by
  simp [dlStep, h1, h2]

theorem dlStep_downFinish (s : DLState) (e : RawLine)
    (h : e.statusD = "Download complete") :
    dlStep s e =
      (match poolGet s.downloading e.id with
       | some tid =>
         { s with
           layers_downloaded := insert e.id s.layers_downloaded
           downloading := poolRemove s.downloading e.id
           progress := ((s.progress.removeTask tid).updateCompleted s.task_layers_download
             (insert e.id s.layers_downloaded).card).updateCompleted s.task_layers_extract
             s.layers_extracted.card }
       | none =>
         { s with
           layers_downloaded := insert e.id s.layers_downloaded
           progress := (s.progress.updateCompleted s.task_layers_download
             (insert e.id s.layers_downloaded).card).updateCompleted s.task_layers_extract
             s.layers_extracted.card }) := by
  have h2 : strContains e.statusD "Pulling from " = false := by rw [h]; decide
  simp [dlStep, h, h2]
  rcases poolGet s.downloading e.id with _ | tid <;> rfl

theorem dlStep_extFinish (s : DLState) (e : RawLine)
    (h : e.statusD = "Pull complete") :
    dlStep s e =
      (match poolGet s.extracting e.id with
       | some tid =>
         { s with
           layers_extracted := insert e.id s.layers_extracted
           extracting := poolRemove s.extracting e.id
           progress := ((s.progress.removeTask tid).updateCompleted s.task_layers_download
             s.layers_downloaded.card).updateCompleted s.task_layers_extract
             (insert e.id s.layers_extracted).card }
       | none =>
         { s with
           layers_extracted := insert e.id s.layers_extracted
           progress := (s.progress.updateCompleted s.task_layers_download
             s.layers_downloaded.card).updateCompleted s.task_layers_extract
             (insert e.id s.layers_extracted).card }) := by
  have h2 : strContains e.statusD "Pulling from " = false := by rw [h]; decide
  simp [dlStep, h, h2]
  rcases poolGet s.extracting e.id with _ | tid <;> rfl

theorem dlStep_downloading (s : DLState) (e : RawLine) (h : e.statusD = "Downloading") :
    dlStep s e =
      (match poolGet s.downloading e.id with
       | some task_id =>
         { s with progress := s.progress.updateCompleted task_id e.detailCurrent }
       | none =>
         { s with
           downloading := poolSet s.downloading e.id s.progress.nextId
           progress := ((s.progress.addTask ("[blue]Downloading " ++
             (match e.id with | some i => i | none => "None")) e.detailTotal true
             e.id).2).updateCompleted s.progress.nextId e.detailCurrent }) := by
  have h2 : strContains "Downloading" "Pulling from " = false := by decide
  simp [dlStep, h, h2, ProgressState.addTask]

theorem dlStep_extracting (s : DLState) (e : RawLine) (t0 : RTask)
    (h : e.statusD = "Extracting")
    (hg : s.progress.getTask s.task_layers_extract = some t0) :
    dlStep s e =
      (let p0 := if t0.started then s.progress
        else s.progress.startTask s.task_layers_extract
       match poolGet s.extracting e.id with
       | some task_id =>
         { s with progress := p0.updateCompleted task_id e.detailCurrent }
       | none =>
         { s with
           extracting := poolSet s.extracting e.id p0.nextId
           progress := ((p0.addTask ("[green]Extracting " ++
             (match e.id with | some i => i | none => "None")) e.detailTotal true
             e.id).2).updateCompleted p0.nextId e.detailCurrent }) := by
  have h2 : strContains "Extracting" "Pulling from " = false := by decide
  simp [dlStep, h, h2, hg, ProgressState.addTask]

theorem dlStep_other (s : DLState) (e : RawLine)
    (h1 : ¬(e.statusD = "Pulling fs layer"))
    (h2 : strContains e.statusD "Pulling from " = false)
    (h3 : ¬(e.statusD = "Download complete" ∨ e.statusD = "Pull complete"))
    (h4 : ¬(e.statusD = "Downloading" ∨ e.statusD = "Extracting")) :
    dlStep s e = s := by
  simp [dlStep, h1, h2, h3, h4]

/-! ## Pool lemmas -/

theorem poolGet_some (pool : TaskPool) (k : Option String) (tid : Nat)
    (h : poolGet pool k = some tid) :
    ∃ kv, kv ∈ pool ∧ kv.1 = k ∧ kv.2 = tid := by
  simp only [poolGet] at h
  rcases hf : pool.find? (fun e => e.1 == k) with _ | kv
  · simp [hf] at h
  · refine ⟨kv, List.mem_of_find?_eq_some hf, ?_, ?_⟩
    · have := List.find?_some hf
      simpa using this
    · simpa [hf] using h

theorem poolRemove_mem (pool : TaskPool) (k : Option String) (kv : Option String × Nat)
    (h : kv ∈ poolRemove pool k) : kv ∈ pool ∧ ¬(kv.1 = k) := by
  simp only [poolRemove] at h
  have h1 := List.mem_of_mem_filter h
  have h2 := List.of_mem_filter h
  refine ⟨h1, ?_⟩
  simpa using h2

theorem poolGet_remove_self (pool : TaskPool) (k : Option String) :
    poolGet (poolRemove pool k) k = none := by
  simp only [poolGet, poolRemove]
  rcases hf : (pool.filter (fun e => !(e.1 == k))).find? (fun e => e.1 == k) with _ | kv
  · simp [hf]
  · exfalso
    have h1 := List.find?_some hf
    have h2 := List.of_mem_filter (List.mem_of_find?_eq_some hf)
    simp at h1 h2
    exact h2 h1

theorem poolGet_set_self (pool : TaskPool) (k : Option String) (v : Nat)
    (h : poolGet pool k = none) : poolGet (poolSet pool k v) k = some v := by
  simp only [poolGet] at h
  have hf : pool.find? (fun e => e.1 == k) = none := by
    rcases hf2 : pool.find? (fun e => e.1 == k) with _ | kv
    · exact hf2
    · simp [hf2] at h
  simp only [poolGet, poolSet, List.find?_append, hf, Option.none_or,
    List.find?_singleton]
  simp

theorem poolSet_mem (pool : TaskPool) (k : Option String) (v : Nat)
    (kv : Option String × Nat) (h : kv ∈ poolSet pool k v) :
    kv ∈ pool ∨ kv = (k, v) := by
  simp only [poolSet] at h
  rcases List.mem_append.mp h with h1 | h1
  · exact Or.inl h1
  · exact Or.inr (by simpa using h1)

/-! ## Invariant preservation -/

theorem dlInv_init : DLInv dlInit := by
  refine ⟨⟨⟨"[bold red]Downloading layers...", 0, 0, true, none⟩, by decide⟩,
    ⟨⟨"[bold gold1]Extracting layers...", 0, 0, false, none⟩, by decide⟩,
    by decide, by decide, by decide, by decide, by decide, by decide⟩

theorem dlInv_discovery (s : DLState) (e : RawLine)
    (h : e.statusD = "Pulling fs layer") (inv : DLInv s) :
    DLInv (dlStep s e) := by
  obtain ⟨⟨td, htd, htd1, htd2⟩, ⟨tx, htx, htx1, htx2⟩, hne, hdlt, hxlt, hpool, hnd, hlt⟩ := inv
  rw [dlStep_discovery s e h]
  simp only [aggTask, ProgressState.updateTotal] at *
  refine ⟨⟨{ td with total := (insert e.id s.layers).card }, ?_, rfl, htd2⟩,
    ⟨{ tx with total := (insert e.id s.layers).card }, ?_, rfl, htx2⟩,
    hne, hdlt, hxlt, ?_, hnd, ?_⟩
  · rw [ProgressState.getTask_modify_ne _ _ _ _ hne,
      ProgressState.getTask_modify_self, htd]
    rfl
  · rw [ProgressState.getTask_modify_self,
      ProgressState.getTask_modify_ne _ _ _ _ (Ne.symm hne), htx]
    rfl
  · intro kv hkv
    obtain ⟨h1, h2, h3, h4⟩ := hpool kv hkv
    exact ⟨h1, h2, ProgressState.isSome_modify _ _ _ _
      (ProgressState.isSome_modify _ _ _ _ h3), h4⟩
  · intro t ht
    exact ProgressState.tasks_lt_modify _ _ _ _
      (ProgressState.tasks_lt_modify _ _ _ _ hlt) t ht

theorem dlInv_sourceNamed (s : DLState) (e : RawLine)
    (h1 : ¬(e.statusD = "Pulling fs layer"))
    (h2 : strContains e.statusD "Pulling from " = true) (inv : DLInv s) :
    DLInv (dlStep s e) := by
  obtain ⟨⟨td, htd, htd1, htd2⟩, ⟨tx, htx, htx1, htx2⟩, hne, hdlt, hxlt, hpool, hnd, hlt⟩ := inv
  rw [dlStep_sourceNamed s e h1 h2]
  simp only [aggTask, ProgressState.setDescription] at *
  refine ⟨⟨{ td with description := "[bold red]Downloading " ++
      (replaceAll e.statusD "Pulling from " "") ++ ":" ++ e.id.getD "latest" }, ?_, htd1, htd2⟩,
    ⟨{ tx with description := "[bold gold1]Extracting " ++
      (replaceAll e.statusD "Pulling from " "") ++ ":" ++ e.id.getD "latest" }, ?_, htx1, htx2⟩,
    hne, hdlt, hxlt, ?_, hnd, ?_⟩
  · rw [ProgressState.getTask_modify_ne _ _ _ _ hne,
      ProgressState.getTask_modify_self, htd]
    rfl
  · rw [ProgressState.getTask_modify_self,
      ProgressState.getTask_modify_ne _ _ _ _ (Ne.symm hne), htx]
    rfl
  · intro kv hkv
    obtain ⟨ha, hb, hc, hd⟩ := hpool kv hkv
    exact ⟨ha, hb, ProgressState.isSome_modify _ _ _ _
      (ProgressState.isSome_modify _ _ _ _ hc), hd⟩
  · intro t ht
    exact ProgressState.tasks_lt_modify _ _ _ _
      (ProgressState.tasks_lt_modify _ _ _ _ hlt) t ht

theorem dlInv_other (s : DLState) (e : RawLine)
    (h1 : ¬(e.statusD = "Pulling fs layer"))
    (h2 : strContains e.statusD "Pulling from " = false)
    (h3 : ¬(e.statusD = "Download complete" ∨ e.statusD = "Pull complete"))
    (h4 : ¬(e.statusD = "Downloading" ∨ e.statusD = "Extracting")) (inv : DLInv s) :
    DLInv (dlStep s e) := by
  rw [dlStep_other s e h1 h2 h3 h4]
  exact inv

theorem ProgressState.isSome_add (p : ProgressState) (tid : Nat) (d : String)
    (tot : Nat) (st : Bool) (lay : Option String)
    (h : (p.getTask tid).isSome = true) :
    (((p.addTask d tot st lay).2).getTask tid).isSome = true := by
  obtain ⟨r, hr⟩ := Option.isSome_iff_exists.mp h
  rw [ProgressState.getTask_add_old p tid r d tot st lay hr]
  rfl

theorem ProgressState.tasks_lt_add (p : ProgressState) (d : String)
    (tot : Nat) (st : Bool) (lay : Option String)
    (h : ∀ t ∈ p.tasks, t.1 < p.nextId) :
    ∀ t ∈ ((p.addTask d tot st lay).2).tasks,
      t.1 < ((p.addTask d tot st lay).2).nextId := by
  intro t ht
  simp only [ProgressState.addTask] at ht ⊢
  rcases List.mem_append.mp ht with h1 | h1
  · exact Nat.lt_succ_of_lt (h t h1)
  · simp at h1
    simp [h1]

theorem pool_nodup_snoc (l : TaskPool) (k : Option String) (nid : Nat)
    (hnd : (l.map (fun kv => kv.2)).Nodup) (hb : ∀ kv ∈ l, kv.2 < nid) :
    ((l ++ [(k, nid)]).map (fun kv => kv.2)).Nodup := by
  rw [List.map_append, List.nodup_append]
  refine ⟨hnd, List.nodup_singleton _, ?_⟩
  intro a ha hb2
  simp at hb2
  obtain ⟨kv, hkv, hkv2⟩ := List.mem_map.mp ha
  have := hb kv hkv
  omega

theorem pool_nodup_mid (down ext : TaskPool) (k : Option String) (nid : Nat)
    (hnd : ((down ++ ext).map (fun kv => kv.2)).Nodup)
    (hb : ∀ kv ∈ down ++ ext, kv.2 < nid) :
    (((down ++ [(k, nid)]) ++ ext).map (fun kv => kv.2)).Nodup := by
  have hperm : ((down ++ [(k, nid)]) ++ ext).Perm ((down ++ ext) ++ [(k, nid)]) := by
    rw [List.append_assoc down [(k, nid)] ext, List.append_assoc down ext [(k, nid)]]
    exact List.Perm.append_left _ List.perm_append_comm
  exact ((hperm.map _).nodup_iff).mpr (pool_nodup_snoc _ k nid hnd hb)

theorem dlInv_downFinish (s : DLState) (e : RawLine)
    (h : e.statusD = "Download complete") (inv : DLInv s) :
    DLInv (dlStep s e) := by
  obtain ⟨⟨td, htd, htd1, htd2⟩, ⟨tx, htx, htx1, htx2⟩, hne, hdlt, hxlt, hpool, hnd, hlt⟩ := inv
  rw [dlStep_downFinish s e h]
  rcases hpg : poolGet s.downloading e.id with _ | tid
  · refine ⟨⟨{ td with completed := (insert e.id s.layers_downloaded).card }, ?_, htd1, rfl⟩,
      ⟨{ tx with completed := s.layers_extracted.card }, ?_, htx1, rfl⟩,
      hne, hdlt, hxlt, ?_, hnd, ?_⟩
    · simp only [ProgressState.updateCompleted]
      rw [ProgressState.getTask_modify_ne _ _ _ _ hne,
        ProgressState.getTask_modify_self, htd]
      rfl
    · simp only [ProgressState.updateCompleted]
      rw [ProgressState.getTask_modify_self,
        ProgressState.getTask_modify_ne _ _ _ _ (Ne.symm hne), htx]
      rfl
    · intro kv hkv
      obtain ⟨ha, hb, hc, hd⟩ := hpool kv hkv
      exact ⟨ha, hb, ProgressState.isSome_modify _ _ _ _
        (ProgressState.isSome_modify _ _ _ _ hc), hd⟩
    · exact ProgressState.tasks_lt_modify _ _ _ _
        (ProgressState.tasks_lt_modify _ _ _ _ hlt)
  · obtain ⟨kv0, hkv0mem, hkv0k, hkv0v⟩ := poolGet_some _ _ _ hpg
    obtain ⟨hk1, hk2, hk3, hk4⟩ := hpool kv0 (List.mem_append.mpr (Or.inl hkv0mem))
    rw [hkv0v] at hk1 hk2 hk3 hk4
    have hinj := List.inj_on_of_nodup_map hnd
    refine ⟨⟨{ td with completed := (insert e.id s.layers_downloaded).card }, ?_, htd1, rfl⟩,
      ⟨{ tx with completed := s.layers_extracted.card }, ?_, htx1, rfl⟩,
      hne, hdlt, hxlt, ?_, ?_, ?_⟩
    · simp only [ProgressState.updateCompleted]
      rw [ProgressState.getTask_modify_ne _ _ _ _ hne,
        ProgressState.getTask_modify_self,
        ProgressState.getTask_remove_ne _ _ _ (Ne.symm hk1), htd]
      rfl
    · simp only [ProgressState.updateCompleted]
      rw [ProgressState.getTask_modify_self,
        ProgressState.getTask_modify_ne _ _ _ _ (Ne.symm hne),
        ProgressState.getTask_remove_ne _ _ _ (Ne.symm hk2), htx]
      rfl
    · intro kv hkv
      have hmem : kv ∈ s.downloading ++ s.extracting ∧ ¬(kv.2 = tid) := by
        rcases List.mem_append.mp hkv with hl | hr
        · obtain ⟨hl1, hl2⟩ := poolRemove_mem _ _ _ hl
          refine ⟨List.mem_append.mpr (Or.inl hl1), fun hv => ?_⟩
          have hkk : kv = kv0 := hinj (List.mem_append.mpr (Or.inl hl1))
            (List.mem_append.mpr (Or.inl hkv0mem)) (hv.trans hkv0v.symm)
          exact hl2 (by rw [hkk, hkv0k])
        · refine ⟨List.mem_append.mpr (Or.inr hr), fun hv => ?_⟩
          have hd2 : (s.downloading.map (fun kv => kv.2)).Disjoint
              (s.extracting.map (fun kv => kv.2)) := by
            have hnd2 := hnd
            rw [List.map_append] at hnd2
            exact List.disjoint_of_nodup_append hnd2
          have m1 : tid ∈ s.downloading.map (fun kv => kv.2) := by
            rw [← hkv0v]; exact List.mem_map_of_mem _ hkv0mem
          have m2 : tid ∈ s.extracting.map (fun kv => kv.2) := by
            rw [← hv]; exact List.mem_map_of_mem _ hr
          exact hd2 m1 m2
      obtain ⟨hmem2, hvne⟩ := hmem
      obtain ⟨ha, hb, hc, hd⟩ := hpool kv hmem2
      refine ⟨ha, hb, ?_, hd⟩
      refine ProgressState.isSome_modify _ _ _ _ (ProgressState.isSome_modify _ _ _ _ ?_)
      rw [ProgressState.getTask_remove_ne _ _ _ hvne]
      exact hc
    · have hsub : ((poolRemove s.downloading e.id) ++ s.extracting).Sublist
          (s.downloading ++ s.extracting) :=
        List.Sublist.append (List.filter_sublist _) (List.Sublist.refl _)
      exact List.Nodup.sublist (hsub.map _) hnd
    · exact ProgressState.tasks_lt_modify _ _ _ _ (ProgressState.tasks_lt_modify _ _ _ _
        (ProgressState.tasks_lt_remove _ _ _ hlt))

theorem dlInv_extFinish (s : DLState) (e : RawLine)
    (h : e.statusD = "Pull complete") (inv : DLInv s) :
    DLInv (dlStep s e) := by
  obtain ⟨⟨td, htd, htd1, htd2⟩, ⟨tx, htx, htx1, htx2⟩, hne, hdlt, hxlt, hpool, hnd, hlt⟩ := inv
  rw [dlStep_extFinish s e h]
  rcases hpg : poolGet s.extracting e.id with _ | tid
  · refine ⟨⟨{ td with completed := s.layers_downloaded.card }, ?_, htd1, rfl⟩,
      ⟨{ tx with completed := (insert e.id s.layers_extracted).card }, ?_, htx1, rfl⟩,
      hne, hdlt, hxlt, ?_, hnd, ?_⟩
    · simp only [ProgressState.updateCompleted]
      rw [ProgressState.getTask_modify_ne _ _ _ _ hne,
        ProgressState.getTask_modify_self, htd]
      rfl
    · simp only [ProgressState.updateCompleted]
      rw [ProgressState.getTask_modify_self,
        ProgressState.getTask_modify_ne _ _ _ _ (Ne.symm hne), htx]
      rfl
    · intro kv hkv
      obtain ⟨ha, hb, hc, hd⟩ := hpool kv hkv
      exact ⟨ha, hb, ProgressState.isSome_modify _ _ _ _
        (ProgressState.isSome_modify _ _ _ _ hc), hd⟩
    · exact ProgressState.tasks_lt_modify _ _ _ _
        (ProgressState.tasks_lt_modify _ _ _ _ hlt)
  · obtain ⟨kv0, hkv0mem, hkv0k, hkv0v⟩ := poolGet_some _ _ _ hpg
    obtain ⟨hk1, hk2, hk3, hk4⟩ := hpool kv0 (List.mem_append.mpr (Or.inr hkv0mem))
    rw [hkv0v] at hk1 hk2 hk3 hk4
    have hinj := List.inj_on_of_nodup_map hnd
    refine ⟨⟨{ td with completed := s.layers_downloaded.card }, ?_, htd1, rfl⟩,
      ⟨{ tx with completed := (insert e.id s.layers_extracted).card }, ?_, htx1, rfl⟩,
      hne, hdlt, hxlt, ?_, ?_, ?_⟩
    · simp only [ProgressState.updateCompleted]
      rw [ProgressState.getTask_modify_ne _ _ _ _ hne,
        ProgressState.getTask_modify_self,
        ProgressState.getTask_remove_ne _ _ _ (Ne.symm hk1), htd]
      rfl
    · simp only [ProgressState.updateCompleted]
      rw [ProgressState.getTask_modify_self,
        ProgressState.getTask_modify_ne _ _ _ _ (Ne.symm hne),
        ProgressState.getTask_remove_ne _ _ _ (Ne.symm hk2), htx]
      rfl
    · intro kv hkv
      have hmem : kv ∈ s.downloading ++ s.extracting ∧ ¬(kv.2 = tid) := by
        rcases List.mem_append.mp hkv with hl | hr
        · refine ⟨List.mem_append.mpr (Or.inl hl), fun hv => ?_⟩
          have hd2 : (s.downloading.map (fun kv => kv.2)).Disjoint
              (s.extracting.map (fun kv => kv.2)) := by
            have hnd2 := hnd
            rw [List.map_append] at hnd2
            exact List.disjoint_of_nodup_append hnd2
          have m1 : tid ∈ s.downloading.map (fun kv => kv.2) := by
            rw [← hv]; exact List.mem_map_of_mem _ hl
          have m2 : tid ∈ s.extracting.map (fun kv => kv.2) := by
            rw [← hkv0v]; exact List.mem_map_of_mem _ hkv0mem
          exact hd2 m1 m2
        · obtain ⟨hr1, hr2⟩ := poolRemove_mem _ _ _ hr
          refine ⟨List.mem_append.mpr (Or.inr hr1), fun hv => ?_⟩
          have hkk : kv = kv0 := hinj (List.mem_append.mpr (Or.inr hr1))
            (List.mem_append.mpr (Or.inr hkv0mem)) (hv.trans hkv0v.symm)
          exact hr2 (by rw [hkk, hkv0k])
      obtain ⟨hmem2, hvne⟩ := hmem
      obtain ⟨ha, hb, hc, hd⟩ := hpool kv hmem2
      refine ⟨ha, hb, ?_, hd⟩
      refine ProgressState.isSome_modify _ _ _ _ (ProgressState.isSome_modify _ _ _ _ ?_)
      rw [ProgressState.getTask_remove_ne _ _ _ hvne]
      exact hc
    · have hsub : (s.downloading ++ (poolRemove s.extracting e.id)).Sublist
          (s.downloading ++ s.extracting) :=
        List.Sublist.append (List.Sublist.refl _) (List.filter_sublist _)
      exact List.Nodup.sublist (hsub.map _) hnd
    · exact ProgressState.tasks_lt_modify _ _ _ _ (ProgressState.tasks_lt_modify _ _ _ _
        (ProgressState.tasks_lt_remove _ _ _ hlt))

theorem dlInv_downloading (s : DLState) (e : RawLine)
    (h : e.statusD = "Downloading") (inv : DLInv s) :
    DLInv (dlStep s e) := by
  obtain ⟨⟨td, htd, htd1, htd2⟩, ⟨tx, htx, htx1, htx2⟩, hne, hdlt, hxlt, hpool, hnd, hlt⟩ := inv
  rw [dlStep_downloading s e h]
  rcases hpg : poolGet s.downloading e.id with _ | task_id
  · have hfresh : ∀ t ∈ s.progress.tasks, t.1 ≠ s.progress.nextId :=
      fun t ht => Nat.ne_of_lt (hlt t ht)
    have hnew := ProgressState.getTask_add_new s.progress
      ("[blue]Downloading " ++ (match e.id with | some i => i | none => "None"))
      e.detailTotal true e.id hfresh
    refine ⟨⟨td, ?_, htd1, htd2⟩, ⟨tx, ?_, htx1, htx2⟩, hne,
      Nat.lt_succ_of_lt hdlt, Nat.lt_succ_of_lt hxlt, ?_, ?_, ?_⟩
    · simp only [ProgressState.updateCompleted]
      rw [ProgressState.getTask_modify_ne _ _ _ _ (Nat.ne_of_lt hdlt)]
      exact ProgressState.getTask_add_old _ _ _ _ _ _ _ htd
    · simp only [ProgressState.updateCompleted]
      rw [ProgressState.getTask_modify_ne _ _ _ _ (Nat.ne_of_lt hxlt)]
      exact ProgressState.getTask_add_old _ _ _ _ _ _ _ htx
    · intro kv hkv
      rcases List.mem_append.mp hkv with hl | hr
      · rcases poolSet_mem _ _ _ _ hl with hold | hnew2
        · obtain ⟨ha, hb, hc, hd⟩ := hpool kv (List.mem_append.mpr (Or.inl hold))
          exact ⟨ha, hb, ProgressState.isSome_modify _ _ _ _
            (ProgressState.isSome_add _ _ _ _ _ _ hc), Nat.lt_succ_of_lt hd⟩
        · subst hnew2
          refine ⟨Ne.symm (Nat.ne_of_lt hdlt), Ne.symm (Nat.ne_of_lt hxlt), ?_,
            Nat.lt_succ_self _⟩
          refine ProgressState.isSome_modify _ _ _ _ ?_
          rw [hnew]
          rfl
      · obtain ⟨ha, hb, hc, hd⟩ := hpool kv (List.mem_append.mpr (Or.inr hr))
        exact ⟨ha, hb, ProgressState.isSome_modify _ _ _ _
          (ProgressState.isSome_add _ _ _ _ _ _ hc), Nat.lt_succ_of_lt hd⟩
    · simp only [poolSet]
      refine pool_nodup_mid _ _ _ _ hnd ?_
      intro kv hkv
      exact (hpool kv hkv).2.2.2
    · exact ProgressState.tasks_lt_modify _ _ _ _
        (ProgressState.tasks_lt_add _ _ _ _ _ hlt)
  · obtain ⟨kv0, hkv0mem, hkv0k, hkv0v⟩ := poolGet_some _ _ _ hpg
    obtain ⟨hk1, hk2, hk3, hk4⟩ := hpool kv0 (List.mem_append.mpr (Or.inl hkv0mem))
    rw [hkv0v] at hk1 hk2 hk3 hk4
    refine ⟨⟨td, ?_, htd1, htd2⟩, ⟨tx, ?_, htx1, htx2⟩, hne, hdlt, hxlt, ?_, hnd, ?_⟩
    · simp only [ProgressState.updateCompleted]
      rw [ProgressState.getTask_modify_ne _ _ _ _ (Ne.symm hk1)]
      exact htd
    · simp only [ProgressState.updateCompleted]
      rw [ProgressState.getTask_modify_ne _ _ _ _ (Ne.symm hk2)]
      exact htx
    · intro kv hkv
      obtain ⟨ha, hb, hc, hd⟩ := hpool kv hkv
      exact ⟨ha, hb, ProgressState.isSome_modify _ _ _ _ hc, hd⟩
    · exact ProgressState.tasks_lt_modify _ _ _ _ hlt


theorem dlInv_extracting (s : DLState) (e : RawLine)
    (h : e.statusD = "Extracting") (inv : DLInv s) :
    DLInv (dlStep s e) := by
  obtain ⟨⟨td, htd, htd1, htd2⟩, ⟨tx, htx, htx1, htx2⟩, hne, hdlt, hxlt, hpool, hnd, hlt⟩ := inv
  rw [dlStep_extracting s e tx h htx]
  by_cases hst : tx.started
  · dsimp only
    rw [if_pos hst]
    rcases hpg : poolGet s.extracting e.id with _ | task_id
    · have hfresh : ∀ t ∈ s.progress.tasks, t.1 ≠ s.progress.nextId :=
        fun t ht => Nat.ne_of_lt (hlt t ht)
      have hnew := ProgressState.getTask_add_new s.progress
        ("[green]Extracting " ++ (match e.id with | some i => i | none => "None"))
        e.detailTotal true e.id hfresh
      refine ⟨⟨td, ?_, htd1, htd2⟩, ⟨tx, ?_, htx1, htx2⟩, hne,
        Nat.lt_succ_of_lt hdlt, Nat.lt_succ_of_lt hxlt, ?_, ?_, ?_⟩
      · simp only [ProgressState.updateCompleted]
        rw [ProgressState.getTask_modify_ne _ _ _ _ (Nat.ne_of_lt hdlt)]
        exact ProgressState.getTask_add_old _ _ _ _ _ _ _ htd
      · simp only [ProgressState.updateCompleted]
        rw [ProgressState.getTask_modify_ne _ _ _ _ (Nat.ne_of_lt hxlt)]
        exact ProgressState.getTask_add_old _ _ _ _ _ _ _ htx
      · intro kv hkv
        rcases List.mem_append.mp hkv with hl | hr
        · obtain ⟨ha, hb, hc, hd⟩ := hpool kv (List.mem_append.mpr (Or.inl hl))
          exact ⟨ha, hb, ProgressState.isSome_modify _ _ _ _
            (ProgressState.isSome_add _ _ _ _ _ _ hc), Nat.lt_succ_of_lt hd⟩
        · rcases poolSet_mem _ _ _ _ hr with hold | hnew2
          · obtain ⟨ha, hb, hc, hd⟩ := hpool kv (List.mem_append.mpr (Or.inr hold))
            exact ⟨ha, hb, ProgressState.isSome_modify _ _ _ _
              (ProgressState.isSome_add _ _ _ _ _ _ hc), Nat.lt_succ_of_lt hd⟩
          · subst hnew2
            refine ⟨Ne.symm (Nat.ne_of_lt hdlt), Ne.symm (Nat.ne_of_lt hxlt), ?_,
              Nat.lt_succ_self _⟩
            refine ProgressState.isSome_modify _ _ _ _ ?_
            rw [hnew]
            rfl
      · simp only [poolSet]
        rw [← List.append_assoc]
        refine pool_nodup_snoc _ _ _ hnd ?_
        intro kv hkv
        exact (hpool kv hkv).2.2.2
      · exact ProgressState.tasks_lt_modify _ _ _ _
          (ProgressState.tasks_lt_add _ _ _ _ _ hlt)
    · obtain ⟨kv0, hkv0mem, hkv0k, hkv0v⟩ := poolGet_some _ _ _ hpg
      obtain ⟨hk1, hk2, hk3, hk4⟩ := hpool kv0 (List.mem_append.mpr (Or.inr hkv0mem))
      rw [hkv0v] at hk1 hk2 hk3 hk4
      refine ⟨⟨td, ?_, htd1, htd2⟩, ⟨tx, ?_, htx1, htx2⟩, hne, hdlt, hxlt, ?_, hnd, ?_⟩
      · simp only [ProgressState.updateCompleted]
        rw [ProgressState.getTask_modify_ne _ _ _ _ (Ne.symm hk1)]
        exact htd
      · simp only [ProgressState.updateCompleted]
        rw [ProgressState.getTask_modify_ne _ _ _ _ (Ne.symm hk2)]
        exact htx
      · intro kv hkv
        obtain ⟨ha, hb, hc, hd⟩ := hpool kv hkv
        exact ⟨ha, hb, ProgressState.isSome_modify _ _ _ _ hc, hd⟩
      · exact ProgressState.tasks_lt_modify _ _ _ _ hlt
  · dsimp only
    rw [if_neg hst]
    have hgd : (s.progress.startTask s.task_layers_extract).getTask
        s.task_layers_download = some td := by
      simp only [ProgressState.startTask]
      rw [ProgressState.getTask_modify_ne _ _ _ _ hne]
      exact htd
    have hgx : (s.progress.startTask s.task_layers_extract).getTask
        s.task_layers_extract = some { tx with started := true } := by
      simp only [ProgressState.startTask]
      rw [ProgressState.getTask_modify_self, htx]
      rfl
    have hplt : ∀ t ∈ (s.progress.startTask s.task_layers_extract).tasks,
        t.1 < (s.progress.startTask s.task_layers_extract).nextId :=
      ProgressState.tasks_lt_modify _ _ _ _ hlt
    have hdlt2 : s.task_layers_download <
        (s.progress.startTask s.task_layers_extract).nextId := hdlt
    have hxlt2 : s.task_layers_extract <
        (s.progress.startTask s.task_layers_extract).nextId := hxlt
    rcases hpg : poolGet s.extracting e.id with _ | task_id
    · have hfresh : ∀ t ∈ (s.progress.startTask s.task_layers_extract).tasks,
          t.1 ≠ (s.progress.startTask s.task_layers_extract).nextId :=
        fun t ht => Nat.ne_of_lt (hplt t ht)
      have hnew := ProgressState.getTask_add_new
        (s.progress.startTask s.task_layers_extract)
        ("[green]Extracting " ++ (match e.id with | some i => i | none => "None"))
        e.detailTotal true e.id hfresh
      refine ⟨⟨td, ?_, htd1, htd2⟩, ⟨{ tx with started := true }, ?_, htx1, htx2⟩, hne,
        Nat.lt_succ_of_lt hdlt, Nat.lt_succ_of_lt hxlt, ?_, ?_, ?_⟩
      · simp only [ProgressState.updateCompleted]
        rw [ProgressState.getTask_modify_ne _ _ _ _ (Nat.ne_of_lt hdlt2)]
        exact ProgressState.getTask_add_old _ _ _ _ _ _ _ hgd
      · simp only [ProgressState.updateCompleted]
        rw [ProgressState.getTask_modify_ne _ _ _ _ (Nat.ne_of_lt hxlt2)]
        exact ProgressState.getTask_add_old _ _ _ _ _ _ _ hgx
      · intro kv hkv
        rcases List.mem_append.mp hkv with hl | hr
        · obtain ⟨ha, hb, hc, hd⟩ := hpool kv (List.mem_append.mpr (Or.inl hl))
          exact ⟨ha, hb, ProgressState.isSome_modify _ _ _ _
            (ProgressState.isSome_add _ _ _ _ _ _
              (ProgressState.isSome_modify _ _ _ _ hc)), Nat.lt_succ_of_lt hd⟩
        · rcases poolSet_mem _ _ _ _ hr with hold | hnew2
          · obtain ⟨ha, hb, hc, hd⟩ := hpool kv (List.mem_append.mpr (Or.inr hold))
            exact ⟨ha, hb, ProgressState.isSome_modify _ _ _ _
              (ProgressState.isSome_add _ _ _ _ _ _
                (ProgressState.isSome_modify _ _ _ _ hc)), Nat.lt_succ_of_lt hd⟩
          · subst hnew2
            refine ⟨Ne.symm (Nat.ne_of_lt hdlt2), Ne.symm (Nat.ne_of_lt hxlt2), ?_,
              Nat.lt_succ_self _⟩
            refine ProgressState.isSome_modify _ _ _ _ ?_
            rw [hnew]
            rfl
      · simp only [poolSet]
        rw [← List.append_assoc]
        refine pool_nodup_snoc _ _ _ hnd ?_
        intro kv hkv
        exact (hpool kv hkv).2.2.2
      · exact ProgressState.tasks_lt_modify _ _ _ _
          (ProgressState.tasks_lt_add _ _ _ _ _ hplt)
    · obtain ⟨kv0, hkv0mem, hkv0k, hkv0v⟩ := poolGet_some _ _ _ hpg
      obtain ⟨hk1, hk2, hk3, hk4⟩ := hpool kv0 (List.mem_append.mpr (Or.inr hkv0mem))
      rw [hkv0v] at hk1 hk2 hk3 hk4
      refine ⟨⟨td, ?_, htd1, htd2⟩, ⟨{ tx with started := true }, ?_, htx1, htx2⟩,
        hne, hdlt, hxlt, ?_, hnd, ?_⟩
      · simp only [ProgressState.updateCompleted]
        rw [ProgressState.getTask_modify_ne _ _ _ _ (Ne.symm hk1)]
        exact hgd
      · simp only [ProgressState.updateCompleted]
        rw [ProgressState.getTask_modify_ne _ _ _ _ (Ne.symm hk2)]
        exact hgx
      · intro kv hkv
        obtain ⟨ha, hb, hc, hd⟩ := hpool kv hkv
        exact ⟨ha, hb, ProgressState.isSome_modify _ _ _ _
          (ProgressState.isSome_modify _ _ _ _ hc), hd⟩
      · exact ProgressState.tasks_lt_modify _ _ _ _
          (ProgressState.tasks_lt_modify _ _ _ _ hlt)

theorem dlStep_inv (s : DLState) (e : RawLine) (inv : DLInv s) : DLInv (dlStep s e) := by
  by_cases c1 : e.statusD = "Pulling fs layer"
  · exact dlInv_discovery s e c1 inv
  by_cases c2 : strContains e.statusD "Pulling from " = true
  · exact dlInv_sourceNamed s e c1 c2 inv
  by_cases c3 : e.statusD = "Download complete"
  · exact dlInv_downFinish s e c3 inv
  by_cases c4 : e.statusD = "Pull complete"
  · exact dlInv_extFinish s e c4 inv
  by_cases c5 : e.statusD = "Downloading"
  · exact dlInv_downloading s e c5 inv
  by_cases c6 : e.statusD = "Extracting"
  · exact dlInv_extracting s e c6 inv
  · refine dlInv_other s e c1 (by simpa using c2) ?_ ?_ inv
    · rintro (hc | hc)
      · exact c3 hc
      · exact c4 hc
    · rintro (hc | hc)
      · exact c5 hc
      · exact c6 hc

theorem dlRun_false (l : List RawLine) (s : DLState) :
    dlRun false s l = (l.foldl dlStep s, []) := by
  induction l generalizing s with
  | nil => rfl
  | cons e rest ih =>
    simp only [dlRun, List.foldl, Bool.and_false]
    exact ih (dlStep s e)

theorem dlInv_foldl (l : List RawLine) (s : DLState) (inv : DLInv s) :
    DLInv (l.foldl dlStep s) := by
  induction l generalizing s with
  | nil => exact inv
  | cons e rest ih => exact ih (dlStep s e) (dlStep_inv s e inv)

theorem dlStep_taskids (s : DLState) (e : RawLine) :
    (dlStep s e).task_layers_download = s.task_layers_download ∧
      (dlStep s e).task_layers_extract = s.task_layers_extract := by
  simp only [dlStep]
  repeat' split
  all_goals exact ⟨rfl, rfl⟩

theorem dlStep_layers (s : DLState) (e : RawLine) :
    (dlStep s e).layers =
      (if e.statusD = "Pulling fs layer" then insert e.id s.layers else s.layers) := by
  have hc1 : strContains "Download complete" "Pulling from " = false := by decide
  have hc2 : strContains "Pull complete" "Pulling from " = false := by decide
  have hc3 : strContains "Downloading" "Pulling from " = false := by decide
  have hc4 : strContains "Extracting" "Pulling from " = false := by decide
  simp only [dlStep]
  repeat' split
  all_goals first
    | rfl
    | simp_all

theorem dlStep_downloaded (s : DLState) (e : RawLine) :
    (dlStep s e).layers_downloaded =
      (if e.statusD = "Download complete" then insert e.id s.layers_downloaded
       else s.layers_downloaded) := by
  have hc1 : strContains "Download complete" "Pulling from " = false := by decide
  have hc2 : strContains "Pull complete" "Pulling from " = false := by decide
  have hc3 : strContains "Downloading" "Pulling from " = false := by decide
  have hc4 : strContains "Extracting" "Pulling from " = false := by decide
  simp only [dlStep]
  repeat' split
  all_goals first
    | rfl
    | simp_all

theorem dlStep_extracted (s : DLState) (e : RawLine) :
    (dlStep s e).layers_extracted =
      (if e.statusD = "Pull complete" then insert e.id s.layers_extracted
       else s.layers_extracted) := by
  have hc1 : strContains "Download complete" "Pulling from " = false := by decide
  have hc2 : strContains "Pull complete" "Pulling from " = false := by decide
  have hc3 : strContains "Downloading" "Pulling from " = false := by decide
  have hc4 : strContains "Extracting" "Pulling from " = false := by decide
  simp only [dlStep]
  repeat' split
  all_goals first
    | rfl
    | simp_all

/-! ## The fallible step never raises from an invariant state -/

theorem except_bind_ok {ε α β : Type} (a : α) (f : α → Except ε β) :
    (Except.ok a : Except ε α) >>= f = f a := rfl

theorem except_pure_eq {ε α : Type} (a : α) : (pure a : Except ε α) = Except.ok a := rfl

theorem ProgressState.addTask_fst (p : ProgressState) (d : String) (tot : Nat)
    (st : Bool) (lay : Option String) : (p.addTask d tot st lay).1 = p.nextId := rfl

theorem ProgressState.updateTotalE_ok (p : ProgressState) (tid n : Nat)
    (h : (p.getTask tid).isSome = true) :
    p.updateTotalE tid n = .ok (p.updateTotal tid n) := by
  simp [ProgressState.updateTotalE, h]

theorem ProgressState.updateCompletedE_ok (p : ProgressState) (tid n : Nat)
    (h : (p.getTask tid).isSome = true) :
    p.updateCompletedE tid n = .ok (p.updateCompleted tid n) := by
  simp [ProgressState.updateCompletedE, h]

theorem ProgressState.setDescriptionE_ok (p : ProgressState) (tid : Nat) (d : String)
    (h : (p.getTask tid).isSome = true) :
    p.setDescriptionE tid d = .ok (p.setDescription tid d) := by
  simp [ProgressState.setDescriptionE, h]

theorem ProgressState.removeTaskE_ok (p : ProgressState) (tid : Nat)
    (h : (p.getTask tid).isSome = true) :
    p.removeTaskE tid = .ok (p.removeTask tid) := by
  simp [ProgressState.removeTaskE, h]

theorem dlStepE_ok (s : DLState) (e : RawLine) (inv : DLInv s) :
    dlStepE s e = .ok (dlStep s e) := by
  obtain ⟨⟨td, htd, htd1, htd2⟩, ⟨tx, htx, htx1, htx2⟩, hne, hdlt, hxlt, hpool, hnd, hlt⟩ := inv
  have hsd : (s.progress.getTask s.task_layers_download).isSome = true := by
    rw [htd]; rfl
  have hsx : (s.progress.getTask s.task_layers_extract).isSome = true := by
    rw [htx]; rfl
  by_cases c1 : e.statusD = "Pulling fs layer"
  · have h1 := ProgressState.updateTotalE_ok s.progress s.task_layers_download
      (insert e.id s.layers).card hsd
    have h2 := ProgressState.updateTotalE_ok
      (s.progress.updateTotal s.task_layers_download (insert e.id s.layers).card)
      s.task_layers_extract (insert e.id s.layers).card
      (ProgressState.isSome_modify _ _ _ _ hsx)
    rw [dlStep_discovery s e c1]
    simp [dlStepE, c1, h1, h2, except_bind_ok, except_pure_eq]
  by_cases c2 : strContains e.statusD "Pulling from " = true
  · have h1 := ProgressState.setDescriptionE_ok s.progress s.task_layers_download
      ("[bold red]Downloading " ++ (replaceAll e.statusD "Pulling from " "") ++ ":" ++
        e.id.getD "latest") hsd
    have h2 := ProgressState.setDescriptionE_ok
      (s.progress.setDescription s.task_layers_download
        ("[bold red]Downloading " ++ (replaceAll e.statusD "Pulling from " "") ++ ":" ++
          e.id.getD "latest"))
      s.task_layers_extract
      ("[bold gold1]Extracting " ++ (replaceAll e.statusD "Pulling from " "") ++ ":" ++
        e.id.getD "latest")
      (ProgressState.isSome_modify _ _ _ _ hsx)
    rw [dlStep_sourceNamed s e c1 c2]
    simp [dlStepE, c1, c2, h1, h2, except_bind_ok, except_pure_eq]
  by_cases c3 : e.statusD = "Download complete"
  · have hcc : strContains "Download complete" "Pulling from " = false := by decide
    rw [dlStep_downFinish s e c3]
    rcases hpg : poolGet s.downloading e.id with _ | tid
    · have h1 := ProgressState.updateCompletedE_ok s.progress s.task_layers_download
        (insert e.id s.layers_downloaded).card hsd
      have h2 := ProgressState.updateCompletedE_ok
        (s.progress.updateCompleted s.task_layers_download
          (insert e.id s.layers_downloaded).card)
        s.task_layers_extract s.layers_extracted.card
        (ProgressState.isSome_modify _ _ _ _ hsx)
      simp [dlStepE, c1, c3, hcc, hpg, h1, h2, except_bind_ok, except_pure_eq]
    · obtain ⟨kv0, hkv0mem, hkv0k, hkv0v⟩ := poolGet_some _ _ _ hpg
      obtain ⟨hk1, hk2, hk3, hk4⟩ := hpool kv0 (List.mem_append.mpr (Or.inl hkv0mem))
      rw [hkv0v] at hk1 hk2 hk3 hk4
      have hrem := ProgressState.removeTaskE_ok s.progress tid hk3
      have hp1 : ((s.progress.removeTask tid).getTask s.task_layers_download).isSome
          = true := by
        rw [ProgressState.getTask_remove_ne _ _ _ (Ne.symm hk1)]
        exact hsd
      have h1 := ProgressState.updateCompletedE_ok (s.progress.removeTask tid)
        s.task_layers_download (insert e.id s.layers_downloaded).card hp1
      have hp2 : (((s.progress.removeTask tid).updateCompleted s.task_layers_download
          (insert e.id s.layers_downloaded).card).getTask
          s.task_layers_extract).isSome = true := by
        refine ProgressState.isSome_modify _ _ _ _ ?_
        rw [ProgressState.getTask_remove_ne _ _ _ (Ne.symm hk2)]
        exact hsx
      have h2 := ProgressState.updateCompletedE_ok _ s.task_layers_extract
        s.layers_extracted.card hp2
      simp [dlStepE, c1, c3, hcc, hpg, hrem, h1, h2, except_bind_ok, except_pure_eq]
  by_cases c4 : e.statusD = "Pull complete"
  · have hcc : strContains "Pull complete" "Pulling from " = false := by decide
    rw [dlStep_extFinish s e c4]
    rcases hpg : poolGet s.extracting e.id with _ | tid
    · have h1 := ProgressState.updateCompletedE_ok s.progress s.task_layers_download
        s.layers_downloaded.card hsd
      have h2 := ProgressState.updateCompletedE_ok
        (s.progress.updateCompleted s.task_layers_download s.layers_downloaded.card)
        s.task_layers_extract (insert e.id s.layers_extracted).card
        (ProgressState.isSome_modify _ _ _ _ hsx)
      simp [dlStepE, c1, c3, c4, hcc, hpg, h1, h2, except_bind_ok, except_pure_eq]
    · obtain ⟨kv0, hkv0mem, hkv0k, hkv0v⟩ := poolGet_some _ _ _ hpg
      obtain ⟨hk1, hk2, hk3, hk4⟩ := hpool kv0 (List.mem_append.mpr (Or.inr hkv0mem))
      rw [hkv0v] at hk1 hk2 hk3 hk4
      have hrem := ProgressState.removeTaskE_ok s.progress tid hk3
      have hp1 : ((s.progress.removeTask tid).getTask s.task_layers_download).isSome
          = true := by
        rw [ProgressState.getTask_remove_ne _ _ _ (Ne.symm hk1)]
        exact hsd
      have h1 := ProgressState.updateCompletedE_ok (s.progress.removeTask tid)
        s.task_layers_download s.layers_downloaded.card hp1
      have hp2 : (((s.progress.removeTask tid).updateCompleted s.task_layers_download
          s.layers_downloaded.card).getTask s.task_layers_extract).isSome = true := by
        refine ProgressState.isSome_modify _ _ _ _ ?_
        rw [ProgressState.getTask_remove_ne _ _ _ (Ne.symm hk2)]
        exact hsx
      have h2 := ProgressState.updateCompletedE_ok _ s.task_layers_extract
        (insert e.id s.layers_extracted).card hp2
      simp [dlStepE, c1, c3, c4, hcc, hpg, hrem, h1, h2, except_bind_ok, except_pure_eq]
  by_cases c5 : e.statusD = "Downloading"
  · have hcc : strContains "Downloading" "Pulling from " = false := by decide
    rw [dlStep_downloading s e c5]
    rcases hpg : poolGet s.downloading e.id with _ | task_id
    · have hfresh : ∀ t ∈ s.progress.tasks, t.1 ≠ s.progress.nextId :=
        fun t ht => Nat.ne_of_lt (hlt t ht)
      have hnew := ProgressState.getTask_add_new s.progress
        ("[blue]Downloading " ++ (match e.id with | some i => i | none => "None"))
        e.detailTotal true e.id hfresh
      have h1 := ProgressState.updateCompletedE_ok
        ((s.progress.addTask ("[blue]Downloading " ++
          (match e.id with | some i => i | none => "None")) e.detailTotal true e.id).2)
        s.progress.nextId e.detailCurrent (by rw [hnew]; rfl)
      simp [dlStepE, c1, c3, c4, c5, hcc, hpg, h1, ProgressState.addTask_fst,
        except_bind_ok, except_pure_eq]
    · obtain ⟨kv0, hkv0mem, hkv0k, hkv0v⟩ := poolGet_some _ _ _ hpg
      obtain ⟨hk1, hk2, hk3, hk4⟩ := hpool kv0 (List.mem_append.mpr (Or.inl hkv0mem))
      rw [hkv0v] at hk1 hk2 hk3 hk4
      have h1 := ProgressState.updateCompletedE_ok s.progress task_id
        e.detailCurrent hk3
      simp [dlStepE, c1, c3, c4, c5, hcc, hpg, h1, except_bind_ok, except_pure_eq]
  by_cases c6 : e.statusD = "Extracting"
  · have hcc : strContains "Extracting" "Pulling from " = false := by decide
    rw [dlStep_extracting s e tx c6 htx]
    by_cases hst : tx.started
    · rcases hpg : poolGet s.extracting e.id with _ | task_id
      · have hfresh : ∀ t ∈ s.progress.tasks, t.1 ≠ s.progress.nextId :=
          fun t ht => Nat.ne_of_lt (hlt t ht)
        have hnew := ProgressState.getTask_add_new s.progress
          ("[green]Extracting " ++ (match e.id with | some i => i | none => "None"))
          e.detailTotal true e.id hfresh
        have h1 := ProgressState.updateCompletedE_ok
          ((s.progress.addTask ("[green]Extracting " ++
            (match e.id with | some i => i | none => "None")) e.detailTotal true
            e.id).2)
          s.progress.nextId e.detailCurrent (by rw [hnew]; rfl)
        simp [dlStepE, c1, c3, c4, c5, c6, hcc, hpg, htx, hst, h1,
          ProgressState.addTask_fst, except_bind_ok, except_pure_eq]
      · obtain ⟨kv0, hkv0mem, hkv0k, hkv0v⟩ := poolGet_some _ _ _ hpg
        obtain ⟨hk1, hk2, hk3, hk4⟩ := hpool kv0 (List.mem_append.mpr (Or.inr hkv0mem))
        rw [hkv0v] at hk1 hk2 hk3 hk4
        have h1 := ProgressState.updateCompletedE_ok s.progress task_id
          e.detailCurrent hk3
        simp [dlStepE, c1, c3, c4, c5, c6, hcc, hpg, htx, hst, h1,
          except_bind_ok, except_pure_eq]
    · have hplt : ∀ t ∈ (s.progress.startTask s.task_layers_extract).tasks,
          t.1 < (s.progress.startTask s.task_layers_extract).nextId :=
        ProgressState.tasks_lt_modify _ _ _ _ hlt
      rcases hpg : poolGet s.extracting e.id with _ | task_id
      · have hfresh : ∀ t ∈ (s.progress.startTask s.task_layers_extract).tasks,
            t.1 ≠ (s.progress.startTask s.task_layers_extract).nextId :=
          fun t ht => Nat.ne_of_lt (hplt t ht)
        have hnew := ProgressState.getTask_add_new
          (s.progress.startTask s.task_layers_extract)
          ("[green]Extracting " ++ (match e.id with | some i => i | none => "None"))
          e.detailTotal true e.id hfresh
        have h1 := ProgressState.updateCompletedE_ok
          (((s.progress.startTask s.task_layers_extract).addTask ("[green]Extracting "
            ++ (match e.id with | some i => i | none => "None")) e.detailTotal true
            e.id).2)
          (s.progress.startTask s.task_layers_extract).nextId e.detailCurrent
          (by rw [hnew]; rfl)
        simp [dlStepE, c1, c3, c4, c5, c6, hcc, hpg, htx, hst, h1,
          ProgressState.addTask_fst, except_bind_ok, except_pure_eq]
      · obtain ⟨kv0, hkv0mem, hkv0k, hkv0v⟩ := poolGet_some _ _ _ hpg
        obtain ⟨hk1, hk2, hk3, hk4⟩ := hpool kv0 (List.mem_append.mpr (Or.inr hkv0mem))
        rw [hkv0v] at hk1 hk2 hk3 hk4
        have h1 := ProgressState.updateCompletedE_ok
          (s.progress.startTask s.task_layers_extract) task_id e.detailCurrent
          (ProgressState.isSome_modify _ _ _ _ hk3)
        simp [dlStepE, c1, c3, c4, c5, c6, hcc, hpg, htx, hst, h1,
          except_bind_ok, except_pure_eq]
  · have hor1 : ¬(e.statusD = "Download complete" ∨ e.statusD = "Pull complete") := by
      rintro (hc | hc)
      · exact c3 hc
      · exact c4 hc
    have hor2 : ¬(e.statusD = "Downloading" ∨ e.statusD = "Extracting") := by
      rintro (hc | hc)
      · exact c5 hc
      · exact c6 hc
    rw [dlStep_other s e c1 (by simpa using c2) hor1 hor2]
    simp [dlStepE, c1, c2, hor1, hor2, except_pure_eq]

theorem dlRunE_ok (l : List RawLine) (quick : Bool) (s : DLState) (inv : DLInv s) :
    dlRunE quick s l = .ok (dlRun quick s l) := by
  induction l generalizing s with
  | nil => rfl
  | cons e rest ih =>
    simp only [dlRunE, dlRun]
    rw [dlStepE_ok s e inv, except_bind_ok]
    by_cases hb : (dlBreaks e && quick) = true
    · simp [hb, except_pure_eq]
    · simp only [Bool.not_eq_true] at hb
      simp [hb]
      exact ih (dlStep s e) (dlStep_inv s e inv)

theorem extractStarted_step (s : DLState) (e : RawLine) (inv : DLInv s) :
    extractStartedB (dlStep s e) =
      (extractStartedB s || (e.statusD == "Extracting")) := by
  obtain ⟨⟨td, htd, htd1, htd2⟩, ⟨tx, htx, htx1, htx2⟩, hne, hdlt, hxlt, hpool, hnd, hlt⟩ := inv
  have hsB : extractStartedB s = tx.started := by
    simp [extractStartedB, htx]
  by_cases c1 : e.statusD = "Pulling fs layer"
  · rw [dlStep_discovery s e c1]
    simp only [extractStartedB, ProgressState.updateTotal]
    rw [ProgressState.getTask_modify_self,
      ProgressState.getTask_modify_ne _ _ _ _ (Ne.symm hne), htx]
    simp [hsB, c1]
  by_cases c2 : strContains e.statusD "Pulling from " = true
  · have hcx : ¬(e.statusD = "Extracting") := by
      intro hc
      rw [hc] at c2
      exact absurd c2 (by decide)
    rw [dlStep_sourceNamed s e c1 c2]
    simp only [extractStartedB, ProgressState.setDescription]
    rw [ProgressState.getTask_modify_self,
      ProgressState.getTask_modify_ne _ _ _ _ (Ne.symm hne), htx]
    simp [hsB, hcx]
  by_cases c3 : e.statusD = "Download complete"
  · rw [dlStep_downFinish s e c3]
    rcases hpg : poolGet s.downloading e.id with _ | tid
    · simp only [extractStartedB, ProgressState.updateCompleted]
      rw [ProgressState.getTask_modify_self,
        ProgressState.getTask_modify_ne _ _ _ _ (Ne.symm hne), htx]
      simp [hsB, c3]
    · obtain ⟨kv0, hkv0mem, hkv0k, hkv0v⟩ := poolGet_some _ _ _ hpg
      obtain ⟨hk1, hk2, hk3, hk4⟩ := hpool kv0 (List.mem_append.mpr (Or.inl hkv0mem))
      rw [hkv0v] at hk1 hk2 hk3 hk4
      simp only [extractStartedB, ProgressState.updateCompleted]
      rw [ProgressState.getTask_modify_self,
        ProgressState.getTask_modify_ne _ _ _ _ (Ne.symm hne),
        ProgressState.getTask_remove_ne _ _ _ (Ne.symm hk2), htx]
      simp [hsB, c3]
  by_cases c4 : e.statusD = "Pull complete"
  · rw [dlStep_extFinish s e c4]
    rcases hpg : poolGet s.extracting e.id with _ | tid
    · simp only [extractStartedB, ProgressState.updateCompleted]
      rw [ProgressState.getTask_modify_self,
        ProgressState.getTask_modify_ne _ _ _ _ (Ne.symm hne), htx]
      simp [hsB, c4]
    · obtain ⟨kv0, hkv0mem, hkv0k, hkv0v⟩ := poolGet_some _ _ _ hpg
      obtain ⟨hk1, hk2, hk3, hk4⟩ := hpool kv0 (List.mem_append.mpr (Or.inr hkv0mem))
      rw [hkv0v] at hk1 hk2 hk3 hk4
      simp only [extractStartedB, ProgressState.updateCompleted]
      rw [ProgressState.getTask_modify_self,
        ProgressState.getTask_modify_ne _ _ _ _ (Ne.symm hne),
        ProgressState.getTask_remove_ne _ _ _ (Ne.symm hk2), htx]
      simp [hsB, c4]
  by_cases c5 : e.statusD = "Downloading"
  · rw [dlStep_downloading s e c5]
    rcases hpg : poolGet s.downloading e.id with _ | task_id
    · simp only [extractStartedB, ProgressState.updateCompleted]
      rw [ProgressState.getTask_modify_ne _ _ _ _ (Nat.ne_of_lt hxlt)]
      rw [ProgressState.getTask_add_old _ _ tx _ _ _ _ htx]
      simp [hsB, htx, c5]
    · obtain ⟨kv0, hkv0mem, hkv0k, hkv0v⟩ := poolGet_some _ _ _ hpg
      obtain ⟨hk1, hk2, hk3, hk4⟩ := hpool kv0 (List.mem_append.mpr (Or.inl hkv0mem))
      rw [hkv0v] at hk1 hk2 hk3 hk4
      simp only [extractStartedB, ProgressState.updateCompleted]
      rw [ProgressState.getTask_modify_ne _ _ _ _ (Ne.symm hk2), htx]
      simp [hsB, c5]
  by_cases c6 : e.statusD = "Extracting"
  · rw [dlStep_extracting s e tx c6 htx]
    by_cases hst : tx.started
    · dsimp only
      rw [if_pos hst]
      rcases hpg : poolGet s.extracting e.id with _ | task_id
      · simp only [extractStartedB, ProgressState.updateCompleted]
        rw [ProgressState.getTask_modify_ne _ _ _ _ (Nat.ne_of_lt hxlt)]
        rw [ProgressState.getTask_add_old _ _ tx _ _ _ _ htx]
        simp [hsB, htx, hst, c6]
      · obtain ⟨kv0, hkv0mem, hkv0k, hkv0v⟩ := poolGet_some _ _ _ hpg
        obtain ⟨hk1, hk2, hk3, hk4⟩ := hpool kv0 (List.mem_append.mpr (Or.inr hkv0mem))
        rw [hkv0v] at hk1 hk2 hk3 hk4
        simp only [extractStartedB, ProgressState.updateCompleted]
        rw [ProgressState.getTask_modify_ne _ _ _ _ (Ne.symm hk2), htx]
        simp [hsB, hst, c6]
    · dsimp only
      rw [if_neg hst]
      have hgx : (s.progress.startTask s.task_layers_extract).getTask
          s.task_layers_extract = some { tx with started := true } := by
        simp only [ProgressState.startTask]
        rw [ProgressState.getTask_modify_self, htx]
        rfl
      have hxlt2 : s.task_layers_extract <
          (s.progress.startTask s.task_layers_extract).nextId := hxlt
      rcases hpg : poolGet s.extracting e.id with _ | task_id
      · simp only [extractStartedB, ProgressState.updateCompleted]
        rw [ProgressState.getTask_modify_ne _ _ _ _ (Nat.ne_of_lt hxlt2)]
        rw [ProgressState.getTask_add_old _ _ _ _ _ _ _ hgx]
        simp [hsB, htx, c6]
      · obtain ⟨kv0, hkv0mem, hkv0k, hkv0v⟩ := poolGet_some _ _ _ hpg
        obtain ⟨hk1, hk2, hk3, hk4⟩ := hpool kv0 (List.mem_append.mpr (Or.inr hkv0mem))
        rw [hkv0v] at hk1 hk2 hk3 hk4
        simp only [extractStartedB, ProgressState.updateCompleted]
        rw [ProgressState.getTask_modify_ne _ _ _ _ (Ne.symm hk2), hgx]
        simp [hsB, c6]
  · have hor1 : ¬(e.statusD = "Download complete" ∨ e.statusD = "Pull complete") := by
      rintro (hc | hc)
      · exact c3 hc
      · exact c4 hc
    have hor2 : ¬(e.statusD = "Downloading" ∨ e.statusD = "Extracting") := by
      rintro (hc | hc)
      · exact c5 hc
      · exact c6 hc
    rw [dlStep_other s e c1 (by simpa using c2) hor1 hor2]
    simp [c6]

theorem extractStarted_foldl (l : List RawLine) (s : DLState) (inv : DLInv s) :
    extractStartedB (l.foldl dlStep s) =
      (extractStartedB s || l.any (fun e => e.statusD == "Extracting")) := by
  induction l generalizing s with
  | nil => simp
  | cons e rest ih =>
    simp only [List.foldl, List.any_cons]
    rw [ih (dlStep s e) (dlStep_inv s e inv), extractStarted_step s e inv]
    simp [Bool.or_assoc]

theorem validFrom_append (seen : Finset (Option String)) (a b : List RawLine)
    (h : validFrom seen (a ++ b) = true) : validFrom seen a = true := by
  induction a generalizing seen with
  | nil => rfl
  | cons e rest ih =>
    simp only [List.cons_append, validFrom, Bool.and_eq_true] at h ⊢
    exact ⟨h.1, ih _ h.2⟩

theorem subsets_foldl (l : List RawLine) (s : DLState)
    (hv : validFrom s.layers l = true)
    (h1 : s.layers_downloaded ⊆ s.layers) (h2 : s.layers_extracted ⊆ s.layers) :
    (l.foldl dlStep s).layers_downloaded ⊆ (l.foldl dlStep s).layers ∧
      (l.foldl dlStep s).layers_extracted ⊆ (l.foldl dlStep s).layers := by
  induction l generalizing s with
  | nil => exact ⟨h1, h2⟩
  | cons e rest ih =>
    simp only [validFrom, Bool.and_eq_true] at hv
    obtain ⟨hvh, hvt⟩ := hv
    simp only [List.foldl]
    have hlayers : (dlStep s e).layers =
        (if e.statusD = "Pulling fs layer" then insert e.id s.layers else s.layers) :=
      dlStep_layers s e
    refine ih (dlStep s e) ?_ ?_ ?_
    · rw [hlayers]
      exact hvt
    · rw [dlStep_downloaded, hlayers]
      by_cases c3 : e.statusD = "Download complete"
      · have hcd : ¬(e.statusD = "Pulling fs layer") := by
          rw [c3]; decide
        rw [if_pos c3, if_neg hcd]
        have hmem : e.id ∈ s.layers := by
          rw [if_pos (Or.inl c3)] at hvh
          exact of_decide_eq_true hvh
        exact Finset.insert_subset hmem h1
      · rw [if_neg c3]
        by_cases c1 : e.statusD = "Pulling fs layer"
        · rw [if_pos c1]
          exact h1.trans (Finset.subset_insert _ _)
        · rw [if_neg c1]
          exact h1
    · rw [dlStep_extracted, hlayers]
      by_cases c4 : e.statusD = "Pull complete"
      · have hcd : ¬(e.statusD = "Pulling fs layer") := by
          rw [c4]; decide
        rw [if_pos c4, if_neg hcd]
        have hmem : e.id ∈ s.layers := by
          rw [if_pos (Or.inr c4)] at hvh
          exact of_decide_eq_true hvh
        exact Finset.insert_subset hmem h2
      · rw [if_neg c4]
        by_cases c1 : e.statusD = "Pulling fs layer"
        · rw [if_pos c1]
          exact h2.trans (Finset.subset_insert _ _)
        · rw [if_neg c1]
          exact h2

/-! ## Idempotence helpers for the aggregate updates -/

theorem ProgressState.updateCompleted_idem (p : ProgressState) (tid n : Nat) :
    (p.updateCompleted tid n).updateCompleted tid n = p.updateCompleted tid n := by
  simp only [ProgressState.updateCompleted]
  rw [ProgressState.modify_modify_same]

theorem ProgressState.updateCompleted_comm (p : ProgressState) (a b m n : Nat)
    (h : a ≠ b) :
    (p.updateCompleted a m).updateCompleted b n =
      (p.updateCompleted b n).updateCompleted a m := by
  simp only [ProgressState.updateCompleted]
  exact ProgressState.modify_comm p a b _ _ h

/-! ## Claim theorems -/

/-- C1: for every prefix of a valid status-event sequence consumed by
`downloadDockerLayer`, the Download completed-set is a subset of the seen-set
and the Extract completed-set is a subset of the seen-set, and the aggregate
progress rows' totals equal `|seen|` while their completed counts equal the
corresponding `|completed|`. -/
theorem c1_completed_subset_seen_and_aggregates (l pre suf : List RawLine)
    (hsplit : l = pre ++ suf) (hv : ValidStream l) :
    ((downloadDockerLayer pre false).1.layers_downloaded ⊆
        (downloadDockerLayer pre false).1.layers) ∧
    ((downloadDockerLayer pre false).1.layers_extracted ⊆
        (downloadDockerLayer pre false).1.layers) ∧
    (∃ t, aggTask false (downloadDockerLayer pre false).1 = some t ∧
        t.total = (downloadDockerLayer pre false).1.layers.card ∧
        t.completed = (downloadDockerLayer pre false).1.layers_downloaded.card) ∧
    (∃ t, aggTask true (downloadDockerLayer pre false).1 = some t ∧
        t.total = (downloadDockerLayer pre false).1.layers.card ∧
        t.completed = (downloadDockerLayer pre false).1.layers_extracted.card) := by
  have hvpre : validFrom ∅ pre = true := validFrom_append ∅ pre suf (hsplit ▸ hv)
  have hrun : (downloadDockerLayer pre false).1 = pre.foldl dlStep dlInit := by
    simp [downloadDockerLayer, dlRun_false]
  have hinv : DLInv (pre.foldl dlStep dlInit) := dlInv_foldl pre dlInit dlInv_init
  have hsub := subsets_foldl pre dlInit hvpre
    (Finset.empty_subset _) (Finset.empty_subset _)
  rw [hrun]
  obtain ⟨hd, hx⟩ := hsub
  obtain ⟨⟨td, htd, htd1, htd2⟩, ⟨tx, htx, htx1, htx2⟩, _, _, _, _, _, _⟩ := hinv
  exact ⟨hd, hx, ⟨td, htd, htd1, htd2⟩, ⟨tx, htx, htx1, htx2⟩⟩

/-- C1 witness: a concrete valid stream (one layer discovered, downloaded and
extracted) evaluated at the prefix before its last event. -/
theorem c1_witness :
    ValidStream [⟨some "Pulling fs layer", some "a", none, none⟩,
      ⟨some "Download complete", some "a", none, none⟩,
      ⟨some "Pull complete", some "a", none, none⟩] ∧
    ((downloadDockerLayer [⟨some "Pulling fs layer", some "a", none, none⟩,
        ⟨some "Download complete", some "a", none, none⟩] false).1.layers_downloaded ⊆
      (downloadDockerLayer [⟨some "Pulling fs layer", some "a", none, none⟩,
        ⟨some "Download complete", some "a", none, none⟩] false).1.layers) :=
  ⟨by decide,
    (c1_completed_subset_seen_and_aggregates
      [⟨some "Pulling fs layer", some "a", none, none⟩,
        ⟨some "Download complete", some "a", none, none⟩,
        ⟨some "Pull complete", some "a", none, none⟩]
      [⟨some "Pulling fs layer", some "a", none, none⟩,
        ⟨some "Download complete", some "a", none, none⟩]
      [⟨some "Pull complete", some "a", none, none⟩] rfl (by decide)).1⟩

/-- C2 counterexample: processing a single ExtractFinished ("Pull complete")
event leaves the extract aggregate row's "started" flag false, refuting the
claim that the flag is true after an ExtractFinished event has been
processed. -/
theorem c2_counterexample :
    (⟨some "Pull complete", some "a", none, none⟩ : RawLine).statusD =
      "Pull complete" ∧
    extractStartedB (downloadDockerLayer
      [⟨some "Pull complete", some "a", none, none⟩] false).1 = false :=
  ⟨rfl, by decide⟩

/-- C2 (amended): after consuming any event list, the extract aggregate row's
"started" flag equals whether some ExtractProgress ("Extracting") event has
been processed — false before the first such event, true after it; an
ExtractFinished ("Pull complete") event does not start the row. -/
theorem c2_extract_started_iff_extract_progress (l : List RawLine) :
    extractStartedB (downloadDockerLayer l false).1 =
      l.any (fun e => e.statusD == "Extracting") := by
  have hrun : (downloadDockerLayer l false).1 = l.foldl dlStep dlInit := by
    simp [downloadDockerLayer, dlRun_false]
  rw [hrun, extractStarted_foldl l dlInit dlInv_init]
  rw [show extractStartedB dlInit = false from by decide]
  simp

/-- C3: after a DownloadFinished or ExtractFinished event the corresponding
per-layer task is absent from its task pool, and processing the same finish
event a second time neither raises (the fallible step returns `ok`) nor
changes the tracker state. -/
theorem c3_finish_idempotent (ext : Bool) (pre : List RawLine) (e : RawLine)
    (hst : e.statusD = finishStatusOf ext) :
    poolGet (poolOf ext (dlStep (downloadDockerLayer pre false).1 e)) e.id = none ∧
    dlStep (dlStep (downloadDockerLayer pre false).1 e) e =
      dlStep (downloadDockerLayer pre false).1 e ∧
    dlStepE (dlStep (downloadDockerLayer pre false).1 e) e =
      .ok (dlStep (downloadDockerLayer pre false).1 e) := by
  have hrun : (downloadDockerLayer pre false).1 = pre.foldl dlStep dlInit := by
    simp [downloadDockerLayer, dlRun_false]
  have hinv : DLInv (downloadDockerLayer pre false).1 := by
    rw [hrun]
    exact dlInv_foldl pre dlInit dlInv_init
  have hinv2 : DLInv (dlStep (downloadDockerLayer pre false).1 e) :=
    dlStep_inv _ e hinv
  have hne := hinv.ids_ne
  cases ext
  · simp only [finishStatusOf, if_neg (by decide : ¬(false = true))] at hst
    have hids := dlStep_taskids (downloadDockerLayer pre false).1 e
    have h1 : poolGet (dlStep (downloadDockerLayer pre false).1 e).downloading
        e.id = none := by
      rw [dlStep_downFinish _ e hst]
      rcases hpg : poolGet (downloadDockerLayer pre false).1.downloading e.id
        with _ | tid
      · exact hpg
      · exact poolGet_remove_self _ _
    have h2 : dlStep (dlStep (downloadDockerLayer pre false).1 e) e =
        dlStep (downloadDockerLayer pre false).1 e := by
      rw [dlStep_downFinish (dlStep (downloadDockerLayer pre false).1 e) e hst, h1]
      rw [dlStep_downFinish (downloadDockerLayer pre false).1 e hst]
      rcases hpg : poolGet (downloadDockerLayer pre false).1.downloading e.id
        with _ | tid
      all_goals
        simp only [Finset.insert_idem]
        congr 1
        all_goals first
          | rfl
          | rw [ProgressState.updateCompleted_comm _ _ _ _ _ (Ne.symm hne),
              ProgressState.updateCompleted_idem,
              ProgressState.updateCompleted_idem]
    refine ⟨?_, h2, ?_⟩
    · simpa [poolOf] using h1
    · rw [dlStepE_ok _ e hinv2, h2]
  · simp only [finishStatusOf, if_pos rfl] at hst
    have hids := dlStep_taskids (downloadDockerLayer pre false).1 e
    have h1 : poolGet (dlStep (downloadDockerLayer pre false).1 e).extracting
        e.id = none := by
      rw [dlStep_extFinish _ e hst]
      rcases hpg : poolGet (downloadDockerLayer pre false).1.extracting e.id
        with _ | tid
      · exact hpg
      · exact poolGet_remove_self _ _
    have h2 : dlStep (dlStep (downloadDockerLayer pre false).1 e) e =
        dlStep (downloadDockerLayer pre false).1 e := by
      rw [dlStep_extFinish (dlStep (downloadDockerLayer pre false).1 e) e hst, h1]
      rw [dlStep_extFinish (downloadDockerLayer pre false).1 e hst]
      rcases hpg : poolGet (downloadDockerLayer pre false).1.extracting e.id
        with _ | tid
      all_goals
        simp only [Finset.insert_idem]
        congr 1
        all_goals first
          | rfl
          | rw [ProgressState.updateCompleted_comm _ _ _ _ _ (Ne.symm hne),
              ProgressState.updateCompleted_idem,
              ProgressState.updateCompleted_idem]
    refine ⟨?_, h2, ?_⟩
    · simpa [poolOf] using h1
    · rw [dlStepE_ok _ e hinv2, h2]

/-- C3 witness: a duplicate "Download complete" event for layer "a" after a
download of that layer. -/
theorem c3_witness :
    poolGet (poolOf false (dlStep (downloadDockerLayer
      [⟨some "Pulling fs layer", some "a", none, none⟩,
        ⟨some "Downloading", some "a", some ⟨some 5, some 50⟩, none⟩] false).1
      ⟨some "Download complete", some "a", none, none⟩)) (some "a") = none :=
  (c3_finish_idempotent false
    [⟨some "Pulling fs layer", some "a", none, none⟩,
      ⟨some "Downloading", some "a", some ⟨some 5, some 50⟩, none⟩]
    ⟨some "Download complete", some "a", none, none⟩ rfl).1

/-- C4: malformed status events are tolerated.  The fallible event loop
returns `ok` on every input stream from the initial state (no raw line, with
whatever fields absent, can raise), and a "Downloading"/"Extracting" event
whose `progressDetail` is absent creates its per-layer task with current and
total both defaulted to 100. -/
theorem c4_malformed_events_tolerated (quick : Bool) (l pre : List RawLine)
    (ext : Bool) (e : RawLine)
    (hst : e.statusD = progStatusOf ext)
    (hmiss : e.progressDetail = none)
    (habs : poolGet (poolOf ext (downloadDockerLayer pre false).1) e.id = none) :
    dlRunE quick dlInit l = .ok (dlRun quick dlInit l) ∧
    (∃ tid, poolGet (poolOf ext (dlStep (downloadDockerLayer pre false).1 e)) e.id
        = some tid ∧
      ∃ t, (dlStep (downloadDockerLayer pre false).1 e).progress.getTask tid =
        some t ∧ t.total = 100 ∧ t.completed = 100) := by
  refine ⟨dlRunE_ok l quick dlInit dlInv_init, ?_⟩
  have hrun : (downloadDockerLayer pre false).1 = pre.foldl dlStep dlInit := by
    simp [downloadDockerLayer, dlRun_false]
  have hinv : DLInv (downloadDockerLayer pre false).1 := by
    rw [hrun]
    exact dlInv_foldl pre dlInit dlInv_init
  obtain ⟨⟨td, htd, htd1, htd2⟩, ⟨tx, htx, htx1, htx2⟩, hne, hdlt, hxlt, hpool, hnd, hlt⟩ :=
    hinv
  have h100t : e.detailTotal = 100 := by simp [RawLine.detailTotal, hmiss]
  have h100c : e.detailCurrent = 100 := by simp [RawLine.detailCurrent, hmiss]
  cases ext
  · have hst2 : e.statusD = "Downloading" := by simpa [progStatusOf] using hst
    have habs2 : poolGet (downloadDockerLayer pre false).1.downloading e.id = none := by
      simpa [poolOf] using habs
    show ∃ tid, poolGet (dlStep (downloadDockerLayer pre false).1 e).downloading e.id
        = some tid ∧
      ∃ t, (dlStep (downloadDockerLayer pre false).1 e).progress.getTask tid =
        some t ∧ t.total = 100 ∧ t.completed = 100
    rw [dlStep_downloading _ e hst2, habs2]
    have hfresh : ∀ t ∈ (downloadDockerLayer pre false).1.progress.tasks,
        t.1 ≠ (downloadDockerLayer pre false).1.progress.nextId :=
      fun t ht => Nat.ne_of_lt (hlt t ht)
    have hnew := ProgressState.getTask_add_new (downloadDockerLayer pre false).1.progress
      ("[blue]Downloading " ++ (match e.id with | some i => i | none => "None"))
      e.detailTotal true e.id hfresh
    refine ⟨(downloadDockerLayer pre false).1.progress.nextId,
      poolGet_set_self _ _ _ habs2, ?_⟩
    refine ⟨⟨"[blue]Downloading " ++ (match e.id with | some i => i | none => "None"),
      e.detailTotal, e.detailCurrent, true, e.id⟩, ?_, h100t, h100c⟩
    simp only [ProgressState.updateCompleted]
    rw [ProgressState.getTask_modify_self, hnew]
    rfl
  · have hst2 : e.statusD = "Extracting" := by simpa [progStatusOf] using hst
    have habs2 : poolGet (downloadDockerLayer pre false).1.extracting e.id = none := by
      simpa [poolOf] using habs
    show ∃ tid, poolGet (dlStep (downloadDockerLayer pre false).1 e).extracting e.id
        = some tid ∧
      ∃ t, (dlStep (downloadDockerLayer pre false).1 e).progress.getTask tid =
        some t ∧ t.total = 100 ∧ t.completed = 100
    rw [dlStep_extracting _ e tx hst2 htx]
    by_cases hstt : tx.started
    · dsimp only
      rw [if_pos hstt, habs2]
      have hfresh : ∀ t ∈ (downloadDockerLayer pre false).1.progress.tasks,
          t.1 ≠ (downloadDockerLayer pre false).1.progress.nextId :=
        fun t ht => Nat.ne_of_lt (hlt t ht)
      have hnew := ProgressState.getTask_add_new
        (downloadDockerLayer pre false).1.progress
        ("[green]Extracting " ++ (match e.id with | some i => i | none => "None"))
        e.detailTotal true e.id hfresh
      refine ⟨(downloadDockerLayer pre false).1.progress.nextId,
        poolGet_set_self _ _ _ habs2, ?_⟩
      refine ⟨⟨"[green]Extracting " ++ (match e.id with | some i => i | none => "None"),
        e.detailTotal, e.detailCurrent, true, e.id⟩, ?_, h100t, h100c⟩
      simp only [ProgressState.updateCompleted]
      rw [ProgressState.getTask_modify_self, hnew]
      rfl
    · dsimp only
      rw [if_neg hstt, habs2]
      have hplt : ∀ t ∈ ((downloadDockerLayer pre false).1.progress.startTask
          (downloadDockerLayer pre false).1.task_layers_extract).tasks,
          t.1 < ((downloadDockerLayer pre false).1.progress.startTask
            (downloadDockerLayer pre false).1.task_layers_extract).nextId :=
        ProgressState.tasks_lt_modify _ _ _ _ hlt
      have hfresh : ∀ t ∈ ((downloadDockerLayer pre false).1.progress.startTask
          (downloadDockerLayer pre false).1.task_layers_extract).tasks,
          t.1 ≠ ((downloadDockerLayer pre false).1.progress.startTask
            (downloadDockerLayer pre false).1.task_layers_extract).nextId :=
        fun t ht => Nat.ne_of_lt (hplt t ht)
      have hnew := ProgressState.getTask_add_new
        ((downloadDockerLayer pre false).1.progress.startTask
          (downloadDockerLayer pre false).1.task_layers_extract)
        ("[green]Extracting " ++ (match e.id with | some i => i | none => "None"))
        e.detailTotal true e.id hfresh
      refine ⟨((downloadDockerLayer pre false).1.progress.startTask
        (downloadDockerLayer pre false).1.task_layers_extract).nextId,
        poolGet_set_self _ _ _ habs2, ?_⟩
      refine ⟨⟨"[green]Extracting " ++ (match e.id with | some i => i | none => "None"),
        e.detailTotal, e.detailCurrent, true, e.id⟩, ?_, h100t, h100c⟩
      simp only [ProgressState.updateCompleted]
      rw [ProgressState.getTask_modify_self, hnew]
      rfl

/-- C4 witness: a "Downloading" event with no `progressDetail` and an unseen
layer id is processed without error by the loop. -/
theorem c4_witness :
    dlRunE false dlInit [⟨some "Downloading", some "a", none, none⟩] =
      .ok (dlRun false dlInit [⟨some "Downloading", some "a", none, none⟩]) :=
  (c4_malformed_events_tolerated false [⟨some "Downloading", some "a", none, none⟩]
    [] false ⟨some "Downloading", some "a", none, none⟩ rfl rfl (by decide)).1

/-- C9: `downloadDockerLayer` imposes no discovery precondition.  A finish
event for a never-discovered (and not yet completed) layer id still inserts
the id into the corresponding completed-set and raises that phase's aggregate
completed count by one, while leaving the seen-set and the aggregate total
unchanged; and a progress event for a layer id with no pooled task still
creates a per-layer task. -/
theorem c9_no_discovery_precondition (ext : Bool) (pre : List RawLine)
    (e e2 : RawLine)
    (hfin : e.statusD = finishStatusOf ext)
    (hseen : e.id ∉ (downloadDockerLayer pre false).1.layers)
    (hcomp : e.id ∉ compSet ext (downloadDockerLayer pre false).1)
    (hprog : e2.statusD = progStatusOf ext)
    (habs : poolGet (poolOf ext (downloadDockerLayer pre false).1) e2.id = none) :
    (dlStep (downloadDockerLayer pre false).1 e).layers =
      (downloadDockerLayer pre false).1.layers ∧
    compSet ext (dlStep (downloadDockerLayer pre false).1 e) =
      insert e.id (compSet ext (downloadDockerLayer pre false).1) ∧
    (∃ t, aggTask ext (dlStep (downloadDockerLayer pre false).1 e) = some t ∧
      t.total = (downloadDockerLayer pre false).1.layers.card ∧
      t.completed = (compSet ext (downloadDockerLayer pre false).1).card + 1) ∧
    (∃ tid, poolGet (poolOf ext (dlStep (downloadDockerLayer pre false).1 e2)) e2.id
        = some tid ∧
      ((dlStep (downloadDockerLayer pre false).1 e2).progress.getTask tid).isSome
        = true) := by
  have hrun : (downloadDockerLayer pre false).1 = pre.foldl dlStep dlInit := by
    simp [downloadDockerLayer, dlRun_false]
  have hinv : DLInv (downloadDockerLayer pre false).1 := by
    rw [hrun]
    exact dlInv_foldl pre dlInit dlInv_init
  obtain ⟨⟨td, htd, htd1, htd2⟩, ⟨tx, htx, htx1, htx2⟩, hne, hdlt, hxlt, hpool, hnd, hlt⟩ :=
    hinv
  cases ext
  · have hfin2 : e.statusD = "Download complete" := by simpa [finishStatusOf] using hfin
    have hcomp2 : e.id ∉ (downloadDockerLayer pre false).1.layers_downloaded := by
      simpa [compSet] using hcomp
    have hprog2 : e2.statusD = "Downloading" := by simpa [progStatusOf] using hprog
    have habs2 : poolGet (downloadDockerLayer pre false).1.downloading e2.id
        = none := by simpa [poolOf] using habs
    show (dlStep (downloadDockerLayer pre false).1 e).layers =
        (downloadDockerLayer pre false).1.layers ∧
      (dlStep (downloadDockerLayer pre false).1 e).layers_downloaded =
        insert e.id (downloadDockerLayer pre false).1.layers_downloaded ∧
      (∃ t, (dlStep (downloadDockerLayer pre false).1 e).progress.getTask
          (dlStep (downloadDockerLayer pre false).1 e).task_layers_download = some t ∧
        t.total = (downloadDockerLayer pre false).1.layers.card ∧
        t.completed = (downloadDockerLayer pre false).1.layers_downloaded.card + 1) ∧
      (∃ tid, poolGet (dlStep (downloadDockerLayer pre false).1 e2).downloading e2.id
          = some tid ∧
        ((dlStep (downloadDockerLayer pre false).1 e2).progress.getTask tid).isSome
          = true)
    refine ⟨?_, ?_, ?_, ?_⟩
    · rw [dlStep_layers, if_neg (by rw [hfin2]; decide)]
    · rw [dlStep_downloaded, if_pos hfin2]
    · rw [dlStep_downFinish _ e hfin2]
      rcases hpg : poolGet (downloadDockerLayer pre false).1.downloading e.id
        with _ | tid
      · refine ⟨{ td with completed :=
          (insert e.id (downloadDockerLayer pre false).1.layers_downloaded).card },
          ?_, htd1, ?_⟩
        · simp only [ProgressState.updateCompleted]
          rw [ProgressState.getTask_modify_ne _ _ _ _ hne,
            ProgressState.getTask_modify_self, htd]
          rfl
        · simp [Finset.card_insert_of_not_mem hcomp2]
      · obtain ⟨kv0, hkv0mem, hkv0k, hkv0v⟩ := poolGet_some _ _ _ hpg
        obtain ⟨hk1, hk2, hk3, hk4⟩ := hpool kv0 (List.mem_append.mpr (Or.inl hkv0mem))
        rw [hkv0v] at hk1 hk2 hk3 hk4
        refine ⟨{ td with completed :=
          (insert e.id (downloadDockerLayer pre false).1.layers_downloaded).card },
          ?_, htd1, ?_⟩
        · simp only [ProgressState.updateCompleted]
          rw [ProgressState.getTask_modify_ne _ _ _ _ hne,
            ProgressState.getTask_modify_self,
            ProgressState.getTask_remove_ne _ _ _ (Ne.symm hk1), htd]
          rfl
        · simp [Finset.card_insert_of_not_mem hcomp2]
    · rw [dlStep_downloading _ e2 hprog2, habs2]
      have hfresh : ∀ t ∈ (downloadDockerLayer pre false).1.progress.tasks,
          t.1 ≠ (downloadDockerLayer pre false).1.progress.nextId :=
        fun t ht => Nat.ne_of_lt (hlt t ht)
      have hnew := ProgressState.getTask_add_new
        (downloadDockerLayer pre false).1.progress
        ("[blue]Downloading " ++ (match e2.id with | some i => i | none => "None"))
        e2.detailTotal true e2.id hfresh
      refine ⟨(downloadDockerLayer pre false).1.progress.nextId,
        poolGet_set_self _ _ _ habs2, ?_⟩
      simp only [ProgressState.updateCompleted]
      rw [ProgressState.getTask_modify_self, hnew]
      rfl
  · have hfin2 : e.statusD = "Pull complete" := by simpa [finishStatusOf] using hfin
    have hcomp2 : e.id ∉ (downloadDockerLayer pre false).1.layers_extracted := by
      simpa [compSet] using hcomp
    have hprog2 : e2.statusD = "Extracting" := by simpa [progStatusOf] using hprog
    have habs2 : poolGet (downloadDockerLayer pre false).1.extracting e2.id
        = none := by simpa [poolOf] using habs
    show (dlStep (downloadDockerLayer pre false).1 e).layers =
        (downloadDockerLayer pre false).1.layers ∧
      (dlStep (downloadDockerLayer pre false).1 e).layers_extracted =
        insert e.id (downloadDockerLayer pre false).1.layers_extracted ∧
      (∃ t, (dlStep (downloadDockerLayer pre false).1 e).progress.getTask
          (dlStep (downloadDockerLayer pre false).1 e).task_layers_extract = some t ∧
        t.total = (downloadDockerLayer pre false).1.layers.card ∧
        t.completed = (downloadDockerLayer pre false).1.layers_extracted.card + 1) ∧
      (∃ tid, poolGet (dlStep (downloadDockerLayer pre false).1 e2).extracting e2.id
          = some tid ∧
        ((dlStep (downloadDockerLayer pre false).1 e2).progress.getTask tid).isSome
          = true)
    refine ⟨?_, ?_, ?_, ?_⟩
    · rw [dlStep_layers, if_neg (by rw [hfin2]; decide)]
    · rw [dlStep_extracted, if_pos hfin2]
    · rw [dlStep_extFinish _ e hfin2]
      rcases hpg : poolGet (downloadDockerLayer pre false).1.extracting e.id
        with _ | tid
      · refine ⟨{ tx with completed :=
          (insert e.id (downloadDockerLayer pre false).1.layers_extracted).card },
          ?_, htx1, ?_⟩
        · simp only [ProgressState.updateCompleted]
          rw [ProgressState.getTask_modify_self,
            ProgressState.getTask_modify_ne _ _ _ _ (Ne.symm hne), htx]
          rfl
        · simp [Finset.card_insert_of_not_mem hcomp2]
      · obtain ⟨kv0, hkv0mem, hkv0k, hkv0v⟩ := poolGet_some _ _ _ hpg
        obtain ⟨hk1, hk2, hk3, hk4⟩ := hpool kv0 (List.mem_append.mpr (Or.inr hkv0mem))
        rw [hkv0v] at hk1 hk2 hk3 hk4
        refine ⟨{ tx with completed :=
          (insert e.id (downloadDockerLayer pre false).1.layers_extracted).card },
          ?_, htx1, ?_⟩
        · simp only [ProgressState.updateCompleted]
          rw [ProgressState.getTask_modify_self,
            ProgressState.getTask_modify_ne _ _ _ _ (Ne.symm hne),
            ProgressState.getTask_remove_ne _ _ _ (Ne.symm hk2), htx]
          rfl
        · simp [Finset.card_insert_of_not_mem hcomp2]
    · rw [dlStep_extracting _ e2 tx hprog2 htx]
      by_cases hstt : tx.started
      · dsimp only
        rw [if_pos hstt, habs2]
        have hfresh : ∀ t ∈ (downloadDockerLayer pre false).1.progress.tasks,
            t.1 ≠ (downloadDockerLayer pre false).1.progress.nextId :=
          fun t ht => Nat.ne_of_lt (hlt t ht)
        have hnew := ProgressState.getTask_add_new
          (downloadDockerLayer pre false).1.progress
          ("[green]Extracting " ++ (match e2.id with | some i => i | none => "None"))
          e2.detailTotal true e2.id hfresh
        refine ⟨(downloadDockerLayer pre false).1.progress.nextId,
          poolGet_set_self _ _ _ habs2, ?_⟩
        simp only [ProgressState.updateCompleted]
        rw [ProgressState.getTask_modify_self, hnew]
        rfl
      · dsimp only
        rw [if_neg hstt, habs2]
        have hplt : ∀ t ∈ ((downloadDockerLayer pre false).1.progress.startTask
            (downloadDockerLayer pre false).1.task_layers_extract).tasks,
            t.1 < ((downloadDockerLayer pre false).1.progress.startTask
              (downloadDockerLayer pre false).1.task_layers_extract).nextId :=
          ProgressState.tasks_lt_modify _ _ _ _ hlt
        have hfresh : ∀ t ∈ ((downloadDockerLayer pre false).1.progress.startTask
            (downloadDockerLayer pre false).1.task_layers_extract).tasks,
            t.1 ≠ ((downloadDockerLayer pre false).1.progress.startTask
              (downloadDockerLayer pre false).1.task_layers_extract).nextId :=
          fun t ht => Nat.ne_of_lt (hplt t ht)
        have hnew := ProgressState.getTask_add_new
          ((downloadDockerLayer pre false).1.progress.startTask
            (downloadDockerLayer pre false).1.task_layers_extract)
          ("[green]Extracting " ++ (match e2.id with | some i => i | none => "None"))
          e2.detailTotal true e2.id hfresh
        refine ⟨((downloadDockerLayer pre false).1.progress.startTask
          (downloadDockerLayer pre false).1.task_layers_extract).nextId,
          poolGet_set_self _ _ _ habs2, ?_⟩
        simp only [ProgressState.updateCompleted]
        rw [ProgressState.getTask_modify_self, hnew]
        rfl

/-- C9 witness: a "Download complete" and a "Downloading" event for layer ids
that were never announced, applied to the initial state. -/
theorem c9_witness :
    (dlStep (downloadDockerLayer [] false).1
        ⟨some "Download complete", some "a", none, none⟩).layers =
      (downloadDockerLayer [] false).1.layers :=
  (c9_no_discovery_precondition false []
    ⟨some "Download complete", some "a", none, none⟩
    ⟨some "Downloading", some "b", none, none⟩
    rfl (by decide) (by decide) rfl (by decide)).1

/-- C5: called on an empty list, `selectFromTable` and `selectFromList` (list
and dict variants alike) log one warning and fail with the IndexError
condition, which is returned to the caller in the result rather than exiting;
no table is rendered and no prompt is issued before the failure. -/
theorem c5_empty_input (α : Type) (render : List α → TableModel)
    (getKey : α → String) (ask : PromptCall → String) (objectType : ObjectType)
    (default : Option String) (verbose debug : Bool) (subject title : String) :
    (selectFromTable render getKey ask [] objectType default).result =
        .error .indexError ∧
    (selectFromTable render getKey ask [] objectType default).tables = [] ∧
    (selectFromTable render getKey ask [] objectType default).promptCalls = [] ∧
    (selectFromTable render getKey ask [] objectType default).warnings.length = 1 ∧
    (selectFromList verbose debug ask subject title default
        (IterData.strList [] : IterData α)).result = .error .indexError ∧
    (selectFromList verbose debug ask subject title default
        (IterData.strList [] : IterData α)).tables = [] ∧
    (selectFromList verbose debug ask subject title default
        (IterData.strList [] : IterData α)).promptCalls = [] ∧
    (selectFromList verbose debug ask subject title default
        (IterData.strList [] : IterData α)).warnings = ["No options were found"] ∧
    (selectFromList verbose debug ask subject title default
        (IterData.dict ([] : List (String × α)))).result = .error .indexError ∧
    (selectFromList verbose debug ask subject title default
        (IterData.dict ([] : List (String × α)))).tables = [] :=
  ⟨rfl, rfl, rfl, rfl, rfl, rfl, rfl, rfl, rfl, rfl⟩

/-- C6: on a non-empty record list with pairwise-distinct display keys,
`selectFromTable` issues exactly one prompt whose closed choice set is the
list of keys and whose default, when none is supplied, is the first record's
key; provided the prompt answer lies in the choice set (which the prompt
mechanism enforces), the function returns the unique record whose key equals
the chosen key. -/
theorem c6_select_from_table (α : Type) (render : List α → TableModel)
    (getKey : α → String) (ask : PromptCall → String) (data : List α)
    (objectType : ObjectType)
    (hne : data ≠ [])
    (hnodup : (data.map getKey).Nodup)
    (hask : ask ⟨data.map getKey, (data.map getKey).headD ""⟩ ∈ data.map getKey) :
    (selectFromTable render getKey ask data objectType none).promptCalls =
      [⟨data.map getKey, (data.map getKey).headD ""⟩] ∧
    (data.map getKey).headD "" = getKey (data.head hne) ∧
    (∃ r, (selectFromTable render getKey ask data objectType none).result = .ok r ∧
      r ∈ data ∧
      getKey r = ask ⟨data.map getKey, (data.map getKey).headD ""⟩ ∧
      ∀ o ∈ data, getKey o = ask ⟨data.map getKey, (data.map getKey).headD ""⟩ →
        o = r) := by
  have hlen : ¬(data.length = 0) := by
    cases data with
    | nil => exact absurd rfl hne
    | cons a rest => simp
  have hhead : (data.map getKey).headD "" = getKey (data.head hne) := by
    cases data with
    | nil => exact absurd rfl hne
    | cons a rest => rfl
  obtain ⟨x, hxmem, hxkey⟩ := List.mem_map.mp hask
  have hfind : data.find?
      (fun o => ask ⟨data.map getKey, (data.map getKey).headD ""⟩ == getKey o) ≠
      none := by
    intro hnone
    rw [List.find?_eq_none] at hnone
    exact hnone x hxmem (by simp [hxkey])
  rcases hf : data.find?
      (fun o => ask ⟨data.map getKey, (data.map getKey).headD ""⟩ == getKey o)
      with _ | r
  · exact absurd hf hfind
  · have hrmem : r ∈ data := List.mem_of_find?_eq_some hf
    have hrkey : getKey r = ask ⟨data.map getKey, (data.map getKey).headD ""⟩ := by
      have hb := List.find?_some hf
      have h2 : (ask ⟨data.map getKey, (data.map getKey).headD ""⟩ == getKey r)
          = true := hb
      exact (eq_of_beq h2).symm
    refine ⟨?_, hhead, r, ?_, hrmem, hrkey, ?_⟩
    · simp only [selectFromTable, if_neg hlen, hf]
    · simp only [selectFromTable, if_neg hlen, hf]
    · intro o homem hokey
      exact List.inj_on_of_nodup_map hnodup homem hrmem (hokey.trans hrkey.symm)

/-- C6 witness: two string records keyed by themselves, the prompt answering
with the offered default. -/
theorem c6_witness :
    (selectFromTable (fun _ : List String => (⟨none, [], []⟩ : TableModel))
      (fun s => s) (fun c => c.defaultChoice) ["k1", "k2"]
      ObjectType.image none).promptCalls = [⟨["k1", "k2"], "k1"⟩] :=
  (c6_select_from_table String (fun _ => (⟨none, [], []⟩ : TableModel))
    (fun s => s) (fun c => c.defaultChoice) ["k1", "k2"] ObjectType.image
    (by decide) (by decide) (by decide)).1

/-- C7: a list of three image records renders, at normal verbosity, a table
with exactly the columns [Image tag, Size, Status, Type] and 3 rows; at
verbose level the table additionally contains the Id, Download size and Disk
size columns and no Size column, still with 3 rows. -/
theorem c7_image_table_columns (i1 i2 i3 : ExegolImage) (debug : Bool)
    (title : Option String) :
    (∃ logs t, printTable false debug (RecordData.images [i1, i2, i3]) title =
        .ok (logs, some t) ∧
      t.columns = [some "Image tag", some "Size", some "Status", some "Type"] ∧
      t.rows.length = 3) ∧
    (∃ logs t, printTable true debug (RecordData.images [i1, i2, i3]) title =
        .ok (logs, some t) ∧
      t.columns = [some "Id", some "Image tag", some "Download size",
        some "Disk size", some "Status", some "Type"] ∧
      some "Size" ∉ t.columns ∧ t.rows.length = 3) := by
  constructor
  · refine ⟨[], buildImageTable false ⟨title, [], []⟩ [i1, i2, i3], rfl, ?_, ?_⟩
    · simp [buildImageTable]
    · simp [buildImageTable]
  · refine ⟨[], buildImageTable true ⟨title, [], []⟩ [i1, i2, i3], rfl, ?_, ?_, ?_⟩
    · simp [buildImageTable]
    · simp [buildImageTable]
    · simp [buildImageTable]

/-- C8: a build-stream line containing ": FROM " makes `buildDockerImage`
immediately re-enter pull-stream consumption of the same stream in quick-exit
mode; within such a sub-consumption an OperationComplete event terminates
consumption at once, leaving the remaining stream elements unconsumed, while
without quick-exit the same event does not stop consumption (the whole stream
is consumed). -/
theorem c8_quick_exit (line : RawLine) (rest : List RawLine) (s : DLState)
    (e : RawLine) (l2 : List RawLine)
    (hfrom : strContains line.streamD ": FROM " = true)
    (hop : dlBreaks e = true) :
    buildRun (line :: rest) =
      buildLineEvents line.streamD ++
        (BuildEvent.info "Downloading docker image" ::
          BuildEvent.subPull (dlRun true dlInit rest).1 ::
          buildRun (dlRun true dlInit rest).2) ∧
    dlRun true s (e :: l2) = (dlStep s e, l2) ∧
    dlRun false s (e :: l2) = dlRun false (dlStep s e) l2 ∧
    (dlRun false s (e :: l2)).2 = [] := by
  refine ⟨?_, ?_, ?_, ?_⟩
  · rw [buildRun]
    simp only [hfrom, if_true]
  · simp only [dlRun, hop, Bool.true_and, if_true]
  · simp only [dlRun, Bool.and_false, Bool.false_eq_true, if_false]
  · rw [dlRun_false]

/-- C8 witness: in quick-exit mode, an "Image is up to date" event stops
consumption, leaving a trailing element unconsumed. -/
theorem c8_witness :
    dlRun true dlInit [⟨some "Image is up to date", none, none, none⟩,
        ⟨some "Pulling fs layer", some "z", none, none⟩] =
      (dlStep dlInit ⟨some "Image is up to date", none, none, none⟩,
        [⟨some "Pulling fs layer", some "z", none, none⟩]) :=
  (c8_quick_exit ⟨none, none, none, some "x: FROM ubuntu"⟩ [] dlInit
    ⟨some "Image is up to date", none, none, none⟩
    [⟨some "Pulling fs layer", some "z", none, none⟩]
    (by decide) (by decide)).2.1

/-- C10 counterexample: `printTable` called on a non-empty string list with
its default (absent) title yields a single column whose header is `none`, not
"Key" — the string-table builder's "Key" default is dead on the `printTable`
path. -/
theorem c10_counterexample :
    printTable false false (RecordData.strings ["a"]) none =
      .ok ([], some ⟨none, [none], [["a"]]⟩) ∧
    ¬(∃ logs t, printTable false false (RecordData.strings ["a"]) none =
        .ok (logs, some t) ∧ t.columns = [some "Key"]) := by
  constructor
  · rfl
  · rintro ⟨logs, t, heq, hcols⟩
    have heq2 : (Except.ok ([], some (⟨none, [none], [["a"]]⟩ : TableModel)) :
        Except TUIError (List String × Option TableModel)) = .ok (logs, some t) := heq
    simp only [Except.ok.injEq, Prod.mk.injEq, Option.some.injEq] at heq2
    rw [← heq2.2] at hcols
    simp at hcols

/-- C10 (amended): the `title` argument of `printTable` is never rendered as
the table's final title for any supported record variant: image lists get the
fixed title "Available images", container lists get the fixed containers
title, and for a non-empty list of strings the title is cleared to `none` and
the caller-supplied title — possibly absent, in which case the single
column's header is `none` — becomes the header of the table's single
column. -/
theorem c10_title_never_rendered (verbose debug : Bool) (title : Option String)
    (imgs : List ExegolImage) (cts : List ExegolContainer) (strs : List String)
    (himgs : ¬(imgs.length = 0)) (hcts : ¬(cts.length = 0))
    (hstrs : ¬(strs.length = 0)) :
    (∃ logs t, printTable verbose debug (RecordData.images imgs) title =
        .ok (logs, some t) ∧ t.title = some "Available images") ∧
    (∃ logs t, printTable verbose debug (RecordData.containers cts) title =
        .ok (logs, some t) ∧
        t.title = some "[gold3][g]Available containers[/g][/gold3]") ∧
    (∃ logs t, printTable verbose debug (RecordData.strings strs) title =
        .ok (logs, some t) ∧ t.title = none ∧ t.columns = [title]) := by
  refine ⟨⟨[], buildImageTable verbose ⟨title, [], []⟩ imgs, ?_, ?_⟩,
    ⟨[], buildContainerTable verbose debug ⟨title, [], []⟩ cts, ?_, ?_⟩,
    ⟨[], buildStringTable ⟨title, [], []⟩ strs title, ?_, ?_, ?_⟩⟩
  · simp only [printTable, RecordData.len, if_neg himgs]
  · simp [buildImageTable]
  · simp only [printTable, RecordData.len, if_neg hcts]
  · simp [buildContainerTable]
  · simp only [printTable, RecordData.len, if_neg hstrs]
  · simp [buildStringTable]
  · simp [buildStringTable]

/-- C10 witness: concrete one-element lists of each variant. -/
theorem c10_witness :
    ∃ logs t, printTable false false
        (RecordData.images [⟨"i", "n", "d", "r", "s", "st", "ty"⟩]) (some "T") =
      .ok (logs, some t) ∧ t.title = some "Available images" :=
  (c10_title_never_rendered false false (some "T")
    [⟨"i", "n", "d", "r", "s", "st", "ty"⟩]
    [⟨"c", "n", "s", "i", "f", "m", "d", "e"⟩] ["a"]
    (by decide) (by decide) (by decide)).1
